import Mathlib

/-!
Verification development for the `social_investment` oTree app
(`src/social_investment/__init__.py`).

The app is a multi-round investment experiment: players are grouped into a
matrix of `NUM_GROUPS` groups with `PLAYERS_PER_GROUP` members each, every
group gets a random successful option from `CHOICES`, players decide
sequentially, an advisor gives a probabilistic recommendation, payoffs are
settled per group, and between rounds the grouping is permuted round-robin.
A custom CSV export aggregates per-participant results for the latest session.

The definitions below are shallow embeddings of the Python functions:
  * `redistribute`      — `RedistributeGroupsWaitPage.after_all_players_arrive`
                          (lines 216-231): visits every cell `(g, p)` of the
                          current group matrix in order (groups outer,
                          positions inner), computes the target group
                          `(g + p + 1) % num_groups` and appends the occupant
                          to that target row.
  * `SequentialWaitPage_is_displayed`, `Decision_is_displayed`
                        — the turn-gate predicates (lines 97-103, 111-117).
  * `recommend`         — the advisor logic of `Decision.vars_for_template`
                          (lines 128-134), with the probability threshold as a
                          parameter (the app instantiates it with
                          `ADVISOR_CORRECTION_THRESHOLD_PERCENT = 70`); the
                          uniform float draw `random.random() * 100` is
                          modelled as a rational in `[0, 100)` and
                          `random.choice(lst)` as indexing by an oracle value
                          modulo the list length.
  * `settleGroup`       — `ResultsWaitPage.after_all_players_arrive`
                          (lines 149-158).  oTree raises a `TypeError` when a
                          model field that is `None` is read directly (the
                          source uses `field_maybe_none` elsewhere precisely
                          to avoid this), so direct field reads are modelled
                          with `Except`.
  * the `SState`/`runUpTo` session machine — the per-round page flow
    `SetupRoundWaitPage → SequentialWaitPage/Decision → ResultsWaitPage →
    RedistributeGroupsWaitPage` of `page_sequence` (lines 254-263), with all
    random draws supplied by an `Oracles` record.
  * `custom_export`     — the participant-row part of `custom_export`
                          (lines 269-349).
-/

-- --------------------------------------------------------------------
-- Constants (class C, lines 35-48)
-- --------------------------------------------------------------------

def PLAYERS_PER_GROUP : Nat := 3

def NUM_GROUPS : Nat := 3

def NUM_ROUNDS : Nat := 3

def OPTION_A : String := "A"

def OPTION_B : String := "B"

def CHOICES : List String := [OPTION_A, OPTION_B]

def CORRECT_CHOICE_REWARD : Int := 10

def INCORRECT_CHOICE_PENALTY : Int := 0

def TRANSACTION_COST : Int := 0

def ADVISOR_CORRECTION_THRESHOLD_PERCENT : ℚ := 70

-- --------------------------------------------------------------------
-- Group redistribution (lines 216-231)
-- --------------------------------------------------------------------

/-- Appending an element to row `i` of a list of rows:
`new_matrix[target_group_index].append(player)` (line 227). -/
def appendAt {α : Type} : List (List α) → Nat → α → List (List α)
  | [], _, _ => []
  | row :: rest, 0, x => (row ++ [x]) :: rest
  | row :: rest, i + 1, x => row :: appendAt rest i x

/-- The `(target_group_index, player)` pairs produced by the inner loop
`for p_index, player in enumerate(group_players)` (lines 222-227), starting
at position counter `p`. -/
def tagRow {α : Type} (n g : Nat) : Nat → List α → List (Nat × α)
  | _, [] => []
  | p, x :: xs => ((g + p + 1) % n, x) :: tagRow n g (p + 1) xs

/-- The `(target_group_index, player)` pairs of the whole double loop
`for g_index, group_players in enumerate(current_matrix)` (lines 221-227),
in visiting order, starting at group counter `g`. -/
def tagMatrix {α : Type} (n : Nat) : Nat → List (List α) → List (Nat × α)
  | _, [] => []
  | g, row :: rest => tagRow n g 0 row ++ tagMatrix n (g + 1) rest

/-- `RedistributeGroupsWaitPage.after_all_players_arrive` (lines 216-231):
start from `num_groups` empty rows and append every occupant of cell
`(g, p)` of the current matrix, in visiting order, to target row
`(g + p + 1) % num_groups`. -/
def redistribute {α : Type} (M : List (List α)) : List (List α) :=
  (tagMatrix M.length 0 M).foldl (fun acc c => appendAt acc c.1 c.2)
    (List.replicate M.length [])

/-- The `n × m` matrix whose entry at cell `(g, p)` is the coordinate pair
`(g, p)` itself; feeding it to `redistribute` exposes the source cell of
every occupant of the output. -/
def coordMatrix (n m : Nat) : List (List (Nat × Nat)) :=
  (List.range n).map fun g => (List.range m).map fun p => (g, p)

-- --------------------------------------------------------------------
-- Turn gate (SequentialWaitPage lines 97-103, Decision lines 111-117)
-- --------------------------------------------------------------------

/-- `SequentialWaitPage.is_displayed` (lines 97-103).  A group member is the
pair of its `id_in_group` and its `investment_choice` as stored this round
(`None` until submitted, read via `field_maybe_none`). -/
def SequentialWaitPage_is_displayed (idInGroup : Nat)
    (players : List (Nat × Option String)) : Bool :=
  if idInGroup = 1 then false
  else players.any fun p => decide (p.1 < idInGroup) && p.2.isNone

/-- `Decision.is_displayed` (lines 111-117). -/
def Decision_is_displayed (idInGroup : Nat)
    (players : List (Nat × Option String)) : Bool :=
  if idInGroup = 1 then true
  else !(players.any fun p => decide (p.1 < idInGroup) && p.2.isNone)

/-- Claim C4: the decision page is shown iff the player's `id_in_group` is 1
or every group member with a strictly smaller `id_in_group` has a non-null
`investment_choice` this round, and the sequential waiting page's display
predicate is the exact logical negation of the decision page's predicate on
every state. -/
theorem decision_gate_iff_and_negation (idInGroup : Nat)
    (players : List (Nat × Option String)) :
    (Decision_is_displayed idInGroup players = true ↔
      (idInGroup = 1 ∨ ∀ p ∈ players, p.1 < idInGroup → p.2 ≠ none)) ∧
    SequentialWaitPage_is_displayed idInGroup players
      = !(Decision_is_displayed idInGroup players) := by
  by_cases h : idInGroup = 1 <;>
    simp [Decision_is_displayed, SequentialWaitPage_is_displayed, h,
      List.any_eq_true, Option.isNone_iff_eq_none]

-- --------------------------------------------------------------------
-- Advisor oracle (Decision.vars_for_template, lines 128-134)
-- --------------------------------------------------------------------

/-- The advisor logic of `Decision.vars_for_template` (lines 128-134),
with the truthfulness threshold as a parameter (the app passes
`ADVISOR_CORRECTION_THRESHOLD_PERCENT`).  `r` models the uniform draw
`random.random() * 100`; `wrongIdx` models the randomness of
`random.choice(wrong_options)` by indexing modulo the list length. -/
def recommend (trueOutcome : String) (threshold : ℚ) (r : ℚ)
    (wrongIdx : Nat) : String :=
  if r < threshold then trueOutcome
  else
    let wrong := CHOICES.filter fun opt => opt ≠ trueOutcome
    wrong.getD (wrongIdx % wrong.length) "A"

theorem wrong_options_ne_nil (trueOutcome : String) :
    (CHOICES.filter fun opt => opt ≠ trueOutcome) ≠ [] := by
  by_cases hA : OPTION_A = trueOutcome
  · have hB : OPTION_B ≠ trueOutcome := by rw [← hA]; decide
    intro h
    have : OPTION_B ∈ CHOICES.filter fun opt => opt ≠ trueOutcome :=
      List.mem_filter.mpr ⟨by simp [CHOICES], by simpa using hB⟩
    rw [h] at this
    exact absurd this (List.not_mem_nil _)
  · intro h
    have : OPTION_A ∈ CHOICES.filter fun opt => opt ≠ trueOutcome :=
      List.mem_filter.mpr ⟨by simp [CHOICES], by simpa using hA⟩
    rw [h] at this
    exact absurd this (List.not_mem_nil _)

/-- Claim C6: for a draw `r` uniform in `[0,100)` the advisor returns the
true outcome when `r < threshold`, and otherwise a member of the choice set
different from the true outcome; with threshold 100 it always returns the
true outcome and with threshold 0 it always differs from it. -/
theorem recommend_threshold_behaviour (trueOutcome : String) (threshold : ℚ)
    (r : ℚ) (wrongIdx : Nat) (h0 : 0 ≤ r) (h100 : r < 100) :
    (r < threshold → recommend trueOutcome threshold r wrongIdx = trueOutcome) ∧
    (¬ r < threshold →
      recommend trueOutcome threshold r wrongIdx ∈ CHOICES ∧
      recommend trueOutcome threshold r wrongIdx ≠ trueOutcome) ∧
    (threshold = 100 → recommend trueOutcome threshold r wrongIdx = trueOutcome) ∧
    (threshold = 0 → recommend trueOutcome threshold r wrongIdx ≠ trueOutcome) := by
  have hwrong : ∀ h : ¬ r < threshold,
      recommend trueOutcome threshold r wrongIdx ∈ CHOICES ∧
      recommend trueOutcome threshold r wrongIdx ≠ trueOutcome := by
    intro h
    have hne := wrong_options_ne_nil trueOutcome
    have hlen : 0 < (CHOICES.filter fun opt => opt ≠ trueOutcome).length :=
      List.length_pos.mpr hne
    have hmem : recommend trueOutcome threshold r wrongIdx
        ∈ CHOICES.filter fun opt => opt ≠ trueOutcome := by
      unfold recommend
      rw [if_neg h]
      have hlt : wrongIdx % (CHOICES.filter fun opt => opt ≠ trueOutcome).length
          < (CHOICES.filter fun opt => opt ≠ trueOutcome).length :=
        Nat.mod_lt _ hlen
      rw [List.getD_eq_getElem _ _ hlt]
      exact List.getElem_mem hlt
    have h1 := List.mem_filter.mp hmem
    refine ⟨h1.1, ?_⟩
    simpa using h1.2
  refine ⟨fun hlt => by unfold recommend; rw [if_pos hlt], hwrong, ?_, ?_⟩
  · intro h; subst h
    unfold recommend
    rw [if_pos h100]
  · intro h; subst h
    have : ¬ r < 0 := not_lt.mpr h0
    exact (hwrong this).2

-- --------------------------------------------------------------------
-- Properties of the redistribution (claims C1, C3)
-- --------------------------------------------------------------------

theorem length_appendAt {α : Type} (M : List (List α)) (i : Nat) (x : α) :
    (appendAt M i x).length = M.length := by
  induction M generalizing i with
  | nil => rfl
  | cons row rest ih => cases i <;> simp [appendAt, ih]

theorem appendAt_getD {α : Type} (M : List (List α)) (i : Nat) (x : α) (j : Nat) :
    (appendAt M i x).getD j [] =
      if i = j ∧ j < M.length then M.getD j [] ++ [x] else M.getD j [] := by
  induction M generalizing i j with
  | nil => simp [appendAt]
  | cons row rest ih =>
    cases i with
    | zero =>
      cases j with
      | zero => simp [appendAt]
      | succ j => simp [appendAt]
    | succ i =>
      cases j with
      | zero => simp [appendAt]
      | succ j => simpa [appendAt, Nat.succ_lt_succ_iff] using ih i j

theorem foldl_appendAt_length {α : Type} (cells : List (Nat × α)) :
    ∀ acc : List (List α),
      (cells.foldl (fun a c => appendAt a c.1 c.2) acc).length = acc.length := by
  induction cells with
  | nil => intro acc; rfl
  | cons c cs ih => intro acc; rw [List.foldl_cons, ih, length_appendAt]

theorem foldl_appendAt_getD {α : Type} (cells : List (Nat × α)) :
    ∀ (acc : List (List α)) (t : Nat), t < acc.length →
      (cells.foldl (fun a c => appendAt a c.1 c.2) acc).getD t [] =
        acc.getD t [] ++ ((cells.filter fun c => c.1 = t).map Prod.snd) := by
  induction cells with
  | nil => intro acc t ht; simp
  | cons c cs ih =>
    intro acc t ht
    have ht' : t < (appendAt acc c.1 c.2).length := by
      rw [length_appendAt]; exact ht
    rw [List.foldl_cons, ih _ t ht', appendAt_getD, List.filter_cons]
    by_cases hc : c.1 = t
    · simp [hc, ht, List.append_assoc]
    · simp [hc]

theorem redistribute_length {α : Type} (M : List (List α)) :
    (redistribute M).length = M.length := by
  rw [redistribute, foldl_appendAt_length, List.length_replicate]

theorem getD_replicate_nil {α : Type} (n t : Nat) :
    (List.replicate n ([] : List α)).getD t [] = [] := by
  induction n generalizing t with
  | zero => simp
  | succ n ih => cases t <;> simp [List.replicate_succ, ih]

theorem redistribute_getD {α : Type} (M : List (List α)) (t : Nat)
    (ht : t < M.length) :
    (redistribute M).getD t [] =
      ((tagMatrix M.length 0 M).filter fun c => c.1 = t).map Prod.snd := by
  rw [redistribute,
    foldl_appendAt_getD _ _ t (by rw [List.length_replicate]; exact ht),
    getD_replicate_nil]
  simp

theorem tagRow_map_snd {α : Type} (n g : Nat) (row : List α) :
    ∀ p, (tagRow n g p row).map Prod.snd = row := by
  induction row with
  | nil => intro p; rfl
  | cons x xs ih => intro p; simp [tagRow, ih]

theorem tagMatrix_map_snd {α : Type} (n : Nat) (M : List (List α)) :
    ∀ g, (tagMatrix n g M).map Prod.snd = M.flatten := by
  induction M with
  | nil => intro g; rfl
  | cons row rest ih => intro g; simp [tagMatrix, tagRow_map_snd, ih]

theorem tagRow_fst_lt {α : Type} (n g : Nat) (hn : 0 < n) (row : List α) :
    ∀ p, ∀ c ∈ tagRow n g p row, c.1 < n := by
  induction row with
  | nil => intro p c hc; simp [tagRow] at hc
  | cons x xs ih =>
    intro p c hc
    rw [tagRow] at hc
    rcases List.mem_cons.mp hc with h | h
    · subst h; exact Nat.mod_lt _ hn
    · exact ih (p + 1) c h

theorem tagMatrix_fst_lt {α : Type} (n : Nat) (hn : 0 < n) (M : List (List α)) :
    ∀ g, ∀ c ∈ tagMatrix n g M, c.1 < n := by
  induction M with
  | nil => intro g c hc; simp [tagMatrix] at hc
  | cons row rest ih =>
    intro g c hc
    rw [tagMatrix] at hc
    rcases List.mem_append.mp hc with h | h
    · exact tagRow_fst_lt n g hn row 0 c h
    · exact ih (g + 1) c h

theorem flatten_eq_range_flatMap {α : Type} (L : List (List α)) :
    L.flatten = (List.range L.length).flatMap fun t => L.getD t [] := by
  induction L with
  | nil => rfl
  | cons row rest ih =>
    rw [List.flatten_cons, List.length_cons, List.range_succ_eq_map,
      List.flatMap_cons, List.flatMap_map]
    simp only [List.getD_cons_zero, List.getD_cons_succ, Function.comp]
    rw [ih]

theorem flatMap_congr_mem {α β : Type} {l : List α} {f g : α → List β}
    (h : ∀ a ∈ l, f a = g a) : l.flatMap f = l.flatMap g := by
  induction l with
  | nil => rfl
  | cons a as ih =>
    rw [List.flatMap_cons, List.flatMap_cons, h a (List.mem_cons_self a as),
      ih fun b hb => h b (List.mem_cons_of_mem _ hb)]

theorem flatMap_ite_insert_perm {β : Type} (x : β) (F : Nat → List β) :
    ∀ (ts : List Nat) (t' : Nat), t' ∈ ts → ts.Nodup →
      ((ts.flatMap fun t => if t' = t then x :: F t else F t).Perm
        (x :: ts.flatMap F)) := by
  intro ts
  induction ts with
  | nil => intro t' h; simp at h
  | cons a as ih =>
    intro t' hmem hnd
    rcases List.nodup_cons.mp hnd with ⟨ha, hnd'⟩
    rw [List.flatMap_cons, List.flatMap_cons]
    by_cases h : t' = a
    · subst h
      rw [if_pos rfl]
      have hrest : (as.flatMap fun t => if t' = t then x :: F t else F t)
          = as.flatMap F :=
        flatMap_congr_mem fun b hb => by
          rw [if_neg]; intro hh; exact ha (hh ▸ hb)
      rw [hrest, List.cons_append]
    · have h' : t' ∈ as := (List.mem_cons.mp hmem).resolve_left h
      rw [if_neg h]
      exact ((ih t' h' hnd').append_left (F a)).trans List.perm_middle

theorem flatMap_filter_fst_perm {α : Type} (n : Nat) :
    ∀ l : List (Nat × α), (∀ c ∈ l, c.1 < n) →
      (((List.range n).flatMap
          fun t => (l.filter fun c => c.1 = t).map Prod.snd).Perm
        (l.map Prod.snd)) := by
  intro l
  induction l with
  | nil => intro _; simp
  | cons c cs ih =>
    intro h
    have hc : c.1 < n := h c (List.mem_cons_self _ _)
    have hcs : ∀ d ∈ cs, d.1 < n := fun d hd => h d (List.mem_cons_of_mem _ hd)
    have hfun : ∀ t, (((c :: cs).filter fun d => d.1 = t).map Prod.snd)
        = if c.1 = t then c.2 :: ((cs.filter fun d => d.1 = t).map Prod.snd)
          else (cs.filter fun d => d.1 = t).map Prod.snd := by
      intro t
      rw [List.filter_cons]
      by_cases hct : c.1 = t
      · simp [hct]
      · simp [hct]
    have hstep : (List.range n).flatMap
          (fun t => ((c :: cs).filter fun d => d.1 = t).map Prod.snd)
        = (List.range n).flatMap
            (fun t => if c.1 = t
              then c.2 :: ((cs.filter fun d => d.1 = t).map Prod.snd)
              else (cs.filter fun d => d.1 = t).map Prod.snd) :=
      flatMap_congr_mem fun t _ => hfun t
    rw [hstep, List.map_cons]
    exact (flatMap_ite_insert_perm c.2
        (fun t => (cs.filter fun d => d.1 = t).map Prod.snd) (List.range n) c.1
        (List.mem_range.mpr hc) (List.nodup_range n)).trans ((ih hcs).cons c.2)

theorem redistribute_flatten_perm {α : Type} (M : List (List α)) :
    (redistribute M).flatten.Perm M.flatten := by
  rcases Nat.eq_zero_or_pos M.length with h0 | hpos
  · have hM : M = [] := List.length_eq_zero.mp h0
    subst hM
    exact List.Perm.refl _
  · rw [flatten_eq_range_flatMap (redistribute M), redistribute_length]
    have h1 : ((List.range M.length).flatMap fun t => (redistribute M).getD t [])
        = (List.range M.length).flatMap
            fun t => ((tagMatrix M.length 0 M).filter fun c => c.1 = t).map
              Prod.snd :=
      flatMap_congr_mem fun t ht => redistribute_getD M t (List.mem_range.mp ht)
    rw [h1]
    have h2 := flatMap_filter_fst_perm M.length (tagMatrix M.length 0 M)
      (tagMatrix_fst_lt M.length hpos M 0)
    rw [tagMatrix_map_snd] at h2
    exact h2

theorem length_filter_comp {α β : Type} (f : α → β) (q : β → Bool)
    (l : List α) :
    (l.filter fun a => q (f a)).length = ((l.map f).filter q).length := by
  induction l with
  | nil => rfl
  | cons c cs ih =>
    rw [List.map_cons, List.filter_cons, List.filter_cons]
    cases hq : q (f c) <;> simp [hq, ih]

theorem tagRow_map_fst {α : Type} (n g : Nat) (row : List α) :
    ∀ p, (tagRow n g p row).map Prod.fst
      = (List.range' p row.length).map fun q => (g + q + 1) % n := by
  induction row with
  | nil => intro p; rfl
  | cons x xs ih =>
    intro p
    rw [tagRow, List.map_cons, List.length_cons, List.range'_succ,
      List.map_cons, ih (p + 1)]

/-- How many positions `p < m` send group `g` to target `t`:
the length of target row `t` contributed by one source row of length `m`. -/
def cellCount (n m t g : Nat) : Nat :=
  ((List.range m).filter fun p => decide ((g + p + 1) % n = t)).length

theorem tagRow_filter_length {α : Type} (n m t g : Nat) (row : List α)
    (hm : row.length = m) :
    ((tagRow n g 0 row).filter fun c => c.1 = t).length = cellCount n m t g := by
  have h1 := length_filter_comp Prod.fst (fun a => decide (a = t))
    (tagRow n g 0 row)
  rw [h1, tagRow_map_fst n g row 0,
    ← length_filter_comp (fun q => (g + q + 1) % n) (fun a => decide (a = t))]
  rw [hm, ← List.range_eq_range']
  rfl

theorem tagMatrix_filter_length {α : Type} (n m t : Nat) :
    ∀ (M : List (List α)) (g : Nat), (∀ row ∈ M, row.length = m) →
      ((tagMatrix n g M).filter fun c => c.1 = t).length
        = ∑ i ∈ Finset.range M.length, cellCount n m t (g + i) := by
  intro M
  induction M with
  | nil => intro g _; simp [tagMatrix]
  | cons row rest ih =>
    intro g hshape
    rw [tagMatrix, List.filter_append, List.length_append,
      tagRow_filter_length n m t g row (hshape row (List.mem_cons_self _ _)),
      ih (g + 1) fun r hr => hshape r (List.mem_cons_of_mem _ hr),
      List.length_cons, Finset.sum_range_succ']
    have hsum : ∀ i ∈ Finset.range rest.length,
        cellCount n m t (g + (i + 1)) = cellCount n m t (g + 1 + i) := by
      intro i _
      have : g + (i + 1) = g + 1 + i := by omega
      rw [this]
    rw [Finset.sum_congr rfl hsum]
    simp only [Nat.add_zero]
    omega

theorem list_filter_range_length (m : Nat) (q : Nat → Bool) :
    ((List.range m).filter q).length
      = ∑ p ∈ Finset.range m, if q p = true then 1 else 0 := by
  induction m with
  | zero => simp
  | succ m ih =>
    rw [List.range_succ, List.filter_append, List.length_append, ih,
      Finset.sum_range_succ]
    cases hq : q m <;> simp [hq]

theorem mod_shift_unique (n c t : Nat) (hc : c < n) (ht : t < n) (g : Nat)
    (hg : g < n) : (g + c) % n = t ↔ g = (t + (n - c)) % n := by
  constructor
  · intro h
    have hdm0 := Nat.div_add_mod (g + c) n
    rw [h] at hdm0
    obtain ⟨q, hq2, hdm⟩ : ∃ q, q < 2 ∧ n * q + t = g + c := by
      refine ⟨(g + c) / n, ?_, hdm0⟩
      exact Nat.div_lt_of_lt_mul
        (lt_of_lt_of_le (Nat.add_lt_add hg hc) (le_of_eq (mul_two n).symm))
    clear hdm0 h
    have hq : q = 0 ∨ q = 1 := by omega
    rcases hq with hq | hq
    · rw [hq, Nat.mul_zero, Nat.zero_add] at hdm
      have he : t + (n - c) = g + n := by omega
      rw [he, Nat.add_mod_right, Nat.mod_eq_of_lt hg]
    · rw [hq, Nat.mul_one] at hdm
      have he : t + (n - c) = g := by omega
      rw [he, Nat.mod_eq_of_lt hg]
  · intro h
    subst h
    rw [Nat.mod_add_mod]
    have he : t + (n - c) + c = t + n := by omega
    rw [he, Nat.add_mod_right, Nat.mod_eq_of_lt ht]

theorem sum_indicator_mod (n t p : Nat) (ht : t < n) :
    (∑ g ∈ Finset.range n, if (g + p + 1) % n = t then 1 else 0) = 1 := by
  have hn : 0 < n := Nat.lt_of_le_of_lt (Nat.zero_le t) ht
  have hc : (p + 1) % n < n := Nat.mod_lt _ hn
  have hmodeq : ∀ g : Nat, (g + p + 1) % n = (g + (p + 1) % n) % n := by
    intro g
    have h1 : g + (p + 1) ≡ g + (p + 1) % n [MOD n] :=
      Nat.ModEq.add_left g (Nat.mod_modEq (p + 1) n).symm
    have h2 : (g + (p + 1)) % n = (g + (p + 1) % n) % n := h1
    rw [← Nat.add_assoc] at h2
    exact h2
  have hcong : ∀ g ∈ Finset.range n,
      (if (g + p + 1) % n = t then (1 : Nat) else 0)
        = if g = (t + (n - (p + 1) % n)) % n then 1 else 0 := by
    intro g hg
    have hiff := mod_shift_unique n ((p + 1) % n) t hc ht g (Finset.mem_range.mp hg)
    rw [hmodeq g, if_congr hiff rfl rfl]
  rw [Finset.sum_congr rfl hcong,
    Finset.sum_ite_eq' (Finset.range n) _ fun _ => (1 : Nat),
    if_pos (Finset.mem_range.mpr (Nat.mod_lt _ hn))]

theorem sum_cellCount (n m t : Nat) (ht : t < n) :
    (∑ g ∈ Finset.range n, cellCount n m t g) = m := by
  have hcell : ∀ g, cellCount n m t g
      = ∑ p ∈ Finset.range m, if (g + p + 1) % n = t then 1 else 0 := by
    intro g
    rw [cellCount, list_filter_range_length]
    exact Finset.sum_congr rfl fun p _ => by simp
  rw [Finset.sum_congr rfl fun g _ => hcell g, Finset.sum_comm,
    Finset.sum_congr rfl fun p _ => sum_indicator_mod n t p ht,
    Finset.sum_const, smul_eq_mul, mul_one, Finset.card_range]

theorem redistribute_row_length {α : Type} (M : List (List α)) (m : Nat)
    (hshape : ∀ row ∈ M, row.length = m) (t : Nat) (ht : t < M.length) :
    ((redistribute M).getD t []).length = m := by
  rw [redistribute_getD M t ht, List.length_map,
    tagMatrix_filter_length M.length m t M 0 hshape]
  have hz : ∀ i ∈ Finset.range M.length,
      cellCount M.length m t (0 + i) = cellCount M.length m t i := by
    intro i _
    rw [Nat.zero_add]
  rw [Finset.sum_congr rfl hz, sum_cellCount M.length m t ht]

theorem redistribute_mem_row_length {α : Type} (M : List (List α)) (m : Nat)
    (hshape : ∀ row ∈ M, row.length = m) :
    ∀ row ∈ redistribute M, row.length = m := by
  intro row hrow
  rcases List.mem_iff_getElem.mp hrow with ⟨i, hi, hrow'⟩
  have hi' : i < M.length := by rw [← redistribute_length M]; exact hi
  have := redistribute_row_length M m hshape i hi'
  rw [List.getD_eq_getElem _ _ hi, hrow'] at this
  exact this

theorem tagRow_mem_cell {α : Type} (n g : Nat) (row : List α) :
    ∀ p0 p (hp : p < row.length),
      ((g + (p0 + p) + 1) % n, row.get ⟨p, hp⟩) ∈ tagRow n g p0 row := by
  induction row with
  | nil => intro p0 p hp; simp at hp
  | cons x xs ih =>
    intro p0 p hp
    cases p with
    | zero =>
      rw [tagRow]
      simp
    | succ p =>
      rw [tagRow]
      have hlt : p < xs.length := Nat.lt_of_succ_lt_succ hp
      have hmem := ih (p0 + 1) p hlt
      have he : p0 + 1 + p = p0 + (p + 1) := by omega
      rw [he] at hmem
      exact List.mem_cons_of_mem _ hmem

theorem tagMatrix_mem_cell {α : Type} (n : Nat) (M : List (List α)) :
    ∀ g0 g (hg : g < M.length) p (hp : p < (M.get ⟨g, hg⟩).length),
      ((g0 + g + p + 1) % n, (M.get ⟨g, hg⟩).get ⟨p, hp⟩)
        ∈ tagMatrix n g0 M := by
  induction M with
  | nil => intro g0 g hg; simp at hg
  | cons row rest ih =>
    intro g0 g hg p hp
    cases g with
    | zero =>
      rw [tagMatrix]
      apply List.mem_append_left
      have hmem := tagRow_mem_cell n g0 row 0 p hp
      have he : g0 + (0 + p) = g0 + 0 + p := by omega
      rw [he] at hmem
      exact hmem
    | succ g =>
      rw [tagMatrix]
      apply List.mem_append_right
      have hg' : g < rest.length := Nat.lt_of_succ_lt_succ hg
      have hmem := ih (g0 + 1) g hg' p hp
      have he : g0 + 1 + g = g0 + (g + 1) := by omega
      rw [he] at hmem
      exact hmem

theorem redistribute_cell_target {α : Type} (M : List (List α)) (g p : Nat)
    (hg : g < M.length) (hp : p < (M.get ⟨g, hg⟩).length) :
    (M.get ⟨g, hg⟩).get ⟨p, hp⟩
      ∈ (redistribute M).getD ((g + p + 1) % M.length) [] := by
  have hn : 0 < M.length := Nat.lt_of_le_of_lt (Nat.zero_le g) hg
  have ht : (g + p + 1) % M.length < M.length := Nat.mod_lt _ hn
  rw [redistribute_getD M _ ht]
  have hcell := tagMatrix_mem_cell M.length M 0 g hg p hp
  simp only [Nat.zero_add] at hcell
  exact List.mem_map.mpr
    ⟨_, List.mem_filter.mpr ⟨hcell, by simp⟩, rfl⟩

/-- Claim C1: for every grouping matrix of `numGroups` rows each of length
`playersPerGroup`, `redistribute` preserves the shape, permutes the cell
occupants (so with pairwise-distinct players every input player occurs
exactly once in the output), and sends the occupant of source cell `(g, p)`
to target row `(g + p + 1) % numGroups`; in particular on
`[[1,2,3],[4,5,6],[7,8,9]]` it produces `[[3,5,7],[1,6,8],[2,4,9]]`,
realising the worked mapping P1→G2, P2→G3, P3→G1, P4→G3, P5→G1, P6→G2,
P7→G1, P8→G2, P9→G3. -/
theorem redistribute_shape_bijection_and_example {α : Type} [DecidableEq α]
    (M : List (List α)) (m : Nat) (hshape : ∀ row ∈ M, row.length = m) :
    (redistribute M).length = M.length ∧
    (∀ row ∈ redistribute M, row.length = m) ∧
    ((redistribute M).flatten.Perm M.flatten) ∧
    (M.flatten.Nodup → ∀ x ∈ M.flatten, (redistribute M).flatten.count x = 1) ∧
    (∀ g p (hg : g < M.length) (hp : p < (M.get ⟨g, hg⟩).length),
      (M.get ⟨g, hg⟩).get ⟨p, hp⟩
        ∈ (redistribute M).getD ((g + p + 1) % M.length) []) ∧
    redistribute [[1,2,3],[4,5,6],[7,8,9]] = [[3,5,7],[1,6,8],[2,4,9]] ∧
    (1 ∈ (redistribute [[1,2,3],[4,5,6],[7,8,9]]).getD 1 [] ∧
     2 ∈ (redistribute [[1,2,3],[4,5,6],[7,8,9]]).getD 2 [] ∧
     3 ∈ (redistribute [[1,2,3],[4,5,6],[7,8,9]]).getD 0 [] ∧
     4 ∈ (redistribute [[1,2,3],[4,5,6],[7,8,9]]).getD 2 [] ∧
     5 ∈ (redistribute [[1,2,3],[4,5,6],[7,8,9]]).getD 0 [] ∧
     6 ∈ (redistribute [[1,2,3],[4,5,6],[7,8,9]]).getD 1 [] ∧
     7 ∈ (redistribute [[1,2,3],[4,5,6],[7,8,9]]).getD 0 [] ∧
     8 ∈ (redistribute [[1,2,3],[4,5,6],[7,8,9]]).getD 1 [] ∧
     9 ∈ (redistribute [[1,2,3],[4,5,6],[7,8,9]]).getD 2 []) := by
  refine ⟨redistribute_length M, redistribute_mem_row_length M m hshape,
    redistribute_flatten_perm M, ?_, redistribute_cell_target M,
    by decide, by decide⟩
  intro hnd x hx
  rw [(redistribute_flatten_perm M).count_eq]
  exact List.count_eq_one_of_mem hnd hx

-- --------------------------------------------------------------------
-- Arrival order inside a target row (claim C3)
-- --------------------------------------------------------------------

theorem tagRow_coord (n g m : Nat) :
    ∀ p0, tagRow n g p0 ((List.range' p0 m).map fun p => (g, p))
      = (List.range' p0 m).map fun p => ((g + p + 1) % n, (g, p)) := by
  induction m with
  | zero => intro p0; rfl
  | succ m ih =>
    intro p0
    rw [List.range'_succ, List.map_cons, tagRow, List.map_cons, ih (p0 + 1)]

theorem tagRow_coord_zero (n g m : Nat) :
    tagRow n g 0 ((List.range m).map fun p => (g, p))
      = (List.range m).map fun p => ((g + p + 1) % n, (g, p)) := by
  rw [List.range_eq_range' m]
  exact tagRow_coord n g m 0

theorem tagMatrix_coord (n m : Nat) :
    ∀ g0 k, tagMatrix n g0 ((List.range' g0 k).map
        fun g => (List.range m).map fun p => (g, p))
      = (List.range' g0 k).flatMap
          fun g => (List.range m).map fun p => ((g + p + 1) % n, (g, p)) := by
  intro g0 k
  induction k generalizing g0 with
  | zero => rfl
  | succ k ih =>
    rw [List.range'_succ, List.map_cons, tagMatrix, List.flatMap_cons,
      tagRow_coord_zero, ih (g0 + 1)]

theorem tagMatrix_coordMatrix (n m : Nat) :
    tagMatrix n 0 (coordMatrix n m)
      = (List.range n).flatMap
          fun g => (List.range m).map fun p => ((g + p + 1) % n, (g, p)) := by
  rw [coordMatrix, List.range_eq_range' n]
  exact tagMatrix_coord n m 0 n

theorem coordMatrix_length (n m : Nat) : (coordMatrix n m).length = n := by
  simp [coordMatrix]

theorem redistribute_coordMatrix_getD (n m t : Nat) (ht : t < n) :
    (redistribute (coordMatrix n m)).getD t []
      = (((List.range n).flatMap
            fun g => (List.range m).map fun p => ((g + p + 1) % n, (g, p))).filter
          (fun c => c.1 = t)).map Prod.snd := by
  have ht' : t < (coordMatrix n m).length := by rw [coordMatrix_length]; exact ht
  rw [redistribute_getD (coordMatrix n m) t ht', coordMatrix_length,
    tagMatrix_coordMatrix]

/-- Claim C3 counterexample input: on the 3×3 coordinate matrix, target
group 0 receives its occupants in the order of increasing source group
index, which is the order of decreasing source position `p` here, so the
occupants do not arrive in the order of increasing source position. -/
theorem redistribute_arrival_not_increasing_p :
    (redistribute (coordMatrix 3 3)).getD 0 [] = [(0, 2), (1, 1), (2, 0)] ∧
    ¬ List.Pairwise (fun a b : Nat × Nat => a.2 ≤ b.2)
      ((redistribute (coordMatrix 3 3)).getD 0 []) := by
  constructor
  · decide
  · decide

/-- Claim C3 (amended): within target group `t` of the redistributed
matrix, the occupants are exactly the occupants of the source cells
`(g, p)` with `(g + p + 1) % n = t`, and they arrive (receiving new
positions 1, 2, ...) in lexicographic order of the source cell: increasing
source group index `g`, and for equal `g` increasing source position `p`
(the source visits groups in the outer loop, not positions). -/
theorem redistribute_arrival_lex_source_group (n m t : Nat) (ht : t < n) :
    (∀ c ∈ (redistribute (coordMatrix n m)).getD t [],
      (c.1 + c.2 + 1) % n = t ∧ c.1 < n ∧ c.2 < m) ∧
    (∀ c : Nat × Nat, c.1 < n → c.2 < m → (c.1 + c.2 + 1) % n = t →
      c ∈ (redistribute (coordMatrix n m)).getD t []) ∧
    List.Pairwise (fun a b : Nat × Nat => a.1 < b.1 ∨ (a.1 = b.1 ∧ a.2 < b.2))
      ((redistribute (coordMatrix n m)).getD t []) := by
  rw [redistribute_coordMatrix_getD n m t ht]
  refine ⟨?_, ?_, ?_⟩
  · intro c hc
    rcases List.mem_map.mp hc with ⟨d, hd, hdc⟩
    rcases List.mem_filter.mp hd with ⟨hdB, hdt⟩
    rcases List.mem_flatMap.mp hdB with ⟨g, hg, hdg⟩
    rcases List.mem_map.mp hdg with ⟨p, hp, hpd⟩
    subst hpd
    subst hdc
    refine ⟨?_, List.mem_range.mp hg, List.mem_range.mp hp⟩
    simpa using hdt
  · rintro ⟨g, p⟩ hg hp htarget
    apply List.mem_map.mpr
    refine ⟨((g + p + 1) % n, (g, p)), ?_, rfl⟩
    apply List.mem_filter.mpr
    refine ⟨?_, by simpa using htarget⟩
    apply List.mem_flatMap.mpr
    exact ⟨g, List.mem_range.mpr hg,
      List.mem_map.mpr ⟨p, List.mem_range.mpr hp, rfl⟩⟩
  · apply List.pairwise_map.mpr
    apply List.Pairwise.sublist (List.filter_sublist _)
    apply List.pairwise_flatMap.mpr
    constructor
    · intro g _
      apply List.pairwise_map.mpr
      exact (List.pairwise_lt_range m).imp fun {p q} hpq => Or.inr ⟨rfl, hpq⟩
    · apply (List.pairwise_lt_range n).imp
      intro g h hgh
      intro x hx y hy
      rcases List.mem_map.mp hx with ⟨p, _, hxp⟩
      rcases List.mem_map.mp hy with ⟨q, _, hyq⟩
      subst hxp
      subst hyq
      exact Or.inl hgh

-- --------------------------------------------------------------------
-- Payoff settling (ResultsWaitPage.after_all_players_arrive, lines 149-158)
-- --------------------------------------------------------------------

/-- The per-round state of one player that the settling code reads and
writes: `investment_choice` and `advisor_option` are nullable string
fields, `is_advisor_followed` starts at 0 each round, `payoff` starts
at 0. -/
structure SettlePlayer where
  investment_choice : Option String
  advisor_option : Option String
  is_advisor_followed : Nat
  payoff : Int
deriving DecidableEq

/-- The body of the loop of `ResultsWaitPage.after_all_players_arrive`
(lines 150-158) for a single player.  Reading a null oTree field directly
(`p.investment_choice`, `p.advisor_option`) raises `TypeError`, modelled as
`Except.error`. -/
def settlePlayerStep (successful : String) (p : SettlePlayer) :
    Except String SettlePlayer :=
  match p.investment_choice with
  | none => .error "investment_choice is None"
  | some ch =>
    let pay : Int :=
      if ch = successful then CORRECT_CHOICE_REWARD - TRANSACTION_COST
      else -INCORRECT_CHOICE_PENALTY - TRANSACTION_COST
    match p.advisor_option with
    | none => .error "advisor_option is None"
    | some advch =>
      let fol :=
        if ch = advch then p.is_advisor_followed + 1 else p.is_advisor_followed
      .ok { p with payoff := pay, is_advisor_followed := fol }

/-- `ResultsWaitPage.after_all_players_arrive` (lines 149-158): settle every
player of the group in order; a raised `TypeError` aborts the loop. -/
def settleGroup (successful : String) :
    List SettlePlayer → Except String (List SettlePlayer)
  | [] => .ok []
  | p :: rest =>
    match settlePlayerStep successful p with
    | .error e => .error e
    | .ok p' =>
      match settleGroup successful rest with
      | .error e => .error e
      | .ok rest' => .ok (p' :: rest')

theorem settleGroup_ok (successful : String) :
    ∀ ps : List SettlePlayer,
      (∀ p ∈ ps, p.investment_choice.isSome ∧ p.advisor_option.isSome) →
      ∃ qs, settleGroup successful ps = .ok qs ∧
        List.Forall₂ (fun p q : SettlePlayer =>
          q.payoff = (if p.investment_choice = some successful
            then CORRECT_CHOICE_REWARD - TRANSACTION_COST
            else -INCORRECT_CHOICE_PENALTY - TRANSACTION_COST) ∧
          (q.is_advisor_followed = p.is_advisor_followed + 1 ↔
            p.investment_choice = p.advisor_option) ∧
          (q.is_advisor_followed = p.is_advisor_followed ∨
            q.is_advisor_followed = p.is_advisor_followed + 1)) ps qs := by
  intro ps
  induction ps with
  | nil => intro _; exact ⟨[], rfl, List.Forall₂.nil⟩
  | cons p rest ih =>
    intro h
    rcases h p (List.mem_cons_self _ _) with ⟨hc, ha⟩
    rcases Option.isSome_iff_exists.mp hc with ⟨c, hcq⟩
    rcases Option.isSome_iff_exists.mp ha with ⟨a, haq⟩
    rcases ih (fun q hq => h q (List.mem_cons_of_mem _ hq)) with ⟨qs, hqs, hfa⟩
    refine ⟨{ p with
        payoff := if c = successful then CORRECT_CHOICE_REWARD - TRANSACTION_COST
          else -INCORRECT_CHOICE_PENALTY - TRANSACTION_COST,
        is_advisor_followed := if c = a then p.is_advisor_followed + 1
          else p.is_advisor_followed } :: qs, ?_, ?_⟩
    · simp [settleGroup, settlePlayerStep, hcq, haq, hqs]
    · refine List.Forall₂.cons ⟨?_, ?_, ?_⟩ hfa
      · rw [hcq]
        simp only [Option.some.injEq]
      · rw [hcq, haq]
        simp only [Option.some.injEq]
        by_cases hca : c = a
        · simp [hca]
        · simp only [if_neg hca]
          constructor
          · intro hcontra
            omega
          · intro hcontra
            exact absurd hcontra hca
      · by_cases hca : c = a
        · right; simp [hca]
        · left; simp [hca]

/-- Claim C5: for a group whose members all have a non-null choice (and, as
the page flow guarantees, a stored advisor recommendation), settling gives
every player payoff `CORRECT_CHOICE_REWARD - TRANSACTION_COST` when the
choice equals the group's successful option and
`-(INCORRECT_CHOICE_PENALTY) - TRANSACTION_COST` otherwise, and increments
the advisor-followed counter by exactly 1 iff the choice equals the stored
recommendation; in particular with successful option `"A"` (reward 10,
penalty 0, cost 0) a player choosing `"A"` gets payoff 10 and a player
choosing `"B"` gets payoff 0. -/
theorem settle_payoff_and_follow_counter (successful : String)
    (ps : List SettlePlayer)
    (h : ∀ p ∈ ps, p.investment_choice.isSome ∧ p.advisor_option.isSome) :
    (∃ qs, settleGroup successful ps = .ok qs ∧
      List.Forall₂ (fun p q : SettlePlayer =>
        q.payoff = (if p.investment_choice = some successful
          then CORRECT_CHOICE_REWARD - TRANSACTION_COST
          else -INCORRECT_CHOICE_PENALTY - TRANSACTION_COST) ∧
        (q.is_advisor_followed = p.is_advisor_followed + 1 ↔
          p.investment_choice = p.advisor_option) ∧
        (q.is_advisor_followed = p.is_advisor_followed ∨
          q.is_advisor_followed = p.is_advisor_followed + 1)) ps qs) ∧
    settleGroup "A"
        [{ investment_choice := some "A", advisor_option := some "A",
           is_advisor_followed := 0, payoff := 0 },
         { investment_choice := some "B", advisor_option := some "A",
           is_advisor_followed := 0, payoff := 0 }]
      = .ok
        [{ investment_choice := some "A", advisor_option := some "A",
           is_advisor_followed := 1, payoff := 10 },
         { investment_choice := some "B", advisor_option := some "A",
           is_advisor_followed := 0, payoff := 0 }] := by
  exact ⟨settleGroup_ok successful ps h, by rfl⟩

-- --------------------------------------------------------------------
-- The per-round session machine (page_sequence, lines 254-263)
-- --------------------------------------------------------------------

/-- Pointwise update of a doubly-indexed field map. -/
def update2 {α : Type} (f : Nat → Nat → α) (i j : Nat) (v : α) :
    Nat → Nat → α :=
  fun x y => if x = i ∧ y = j then v else f x y

/-- The database state of one session.  Groups and players exist per round,
so every field is keyed by round number and group index (for
`successful_option`) or participant number (for the player fields).
`optW`/`advW` count how many times the corresponding field has been
written, to express "assigned exactly once" claims. -/
structure SState where
  opt : Nat → Nat → Option String
  optW : Nat → Nat → Nat
  adv : Nat → Nat → Option String
  advW : Nat → Nat → Nat
  choice : Nat → Nat → Option String
  followed : Nat → Nat → Nat
  payoff : Nat → Nat → Int
  grouping : Nat → List (List Nat)

/-- All random draws of a session, keyed by call site: `optDraw r g` feeds
`random.choice(C.CHOICES)` for group `g` of round `r`; `advR r pid` is the
uniform draw `random.random() * 100` for player `pid` in round `r`;
`wrongDraw` feeds `random.choice(wrong_options)`; `choiceDraw` is the
choice index the player submits on the decision form. -/
structure Oracles where
  optDraw : Nat → Nat → Nat
  advR : Nat → Nat → ℚ
  wrongDraw : Nat → Nat → Nat
  choiceDraw : Nat → Nat → Nat

/-- `g.successful_option = random.choice(C.CHOICES)` (line 75) for one
group, also bumping the write counter. -/
def writeOpt (s : SState) (r g : Nat) (v : String) : SState :=
  { s with opt := update2 s.opt r g (some v),
           optW := update2 s.optW r g (s.optW r g + 1) }

/-- `assign_successful_options` (lines 73-75): one write per group of the
round's group matrix. -/
def assignOptions (ro : Oracles) (r : Nat) (s : SState) : SState :=
  (List.range (s.grouping r).length).foldl
    (fun st g => writeOpt st r g (CHOICES.getD (ro.optDraw r g % CHOICES.length) "A"))
    s

/-- One player's visit of the `Decision` page in round `r` while sitting in
group `gIdx`: `vars_for_template` computes and persists the advisor option
(lines 128-137) and the submitted form stores `investment_choice`. -/
def decideOne (ro : Oracles) (r gIdx pid : Nat) (s : SState) : SState :=
  let a := recommend ((s.opt r gIdx).getD "")
    ADVISOR_CORRECTION_THRESHOLD_PERCENT (ro.advR r pid) (ro.wrongDraw r pid)
  let c := CHOICES.getD (ro.choiceDraw r pid % CHOICES.length) "A"
  let s1 := { s with adv := update2 s.adv r pid (some a),
                     advW := update2 s.advW r pid (s.advW r pid + 1) }
  { s1 with choice := update2 s1.choice r pid (some c) }

/-- Visit every cell of a group matrix in order (groups outer, members in
position order — the order the turn gate enforces), threading the state. -/
def foldCellsAux (f : Nat → Nat → SState → SState) :
    Nat → List (List Nat) → SState → SState
  | _, [], s => s
  | gIdx, row :: rest, s =>
      foldCellsAux f (gIdx + 1) rest (row.foldl (fun st pid => f gIdx pid st) s)

/-- The decision phase of round `r`: every player sees the `Decision` page
once, in turn order within their group. -/
def decidePhase (ro : Oracles) (r : Nat) (s : SState) : SState :=
  foldCellsAux (decideOne ro r) 0 (s.grouping r) s

/-- The loop body of `ResultsWaitPage.after_all_players_arrive`
(lines 150-158) for one player, reading the fields stored in the state (in
the page flow they are always set by now, so the total `getD` read is
exact). -/
def settleOne (r gIdx pid : Nat) (s : SState) : SState :=
  let succ := (s.opt r gIdx).getD ""
  let ch := (s.choice r pid).getD ""
  let a := (s.adv r pid).getD ""
  let pay : Int :=
    if ch = succ then CORRECT_CHOICE_REWARD - TRANSACTION_COST
    else -INCORRECT_CHOICE_PENALTY - TRANSACTION_COST
  let s1 := { s with payoff := update2 s.payoff r pid pay }
  if ch = a then
    { s1 with followed := update2 s1.followed r pid (s1.followed r pid + 1) }
  else s1

/-- The settling phase of round `r` (every group's `ResultsWaitPage`). -/
def settlePhase (r : Nat) (s : SState) : SState :=
  foldCellsAux (settleOne r) 0 (s.grouping r) s

/-- `RedistributeGroupsWaitPage.after_all_players_arrive` (lines 216-234):
only displayed while `round_number < NUM_ROUNDS`; computes the next
round's group matrix and then assigns successful options to the next
round's groups. -/
def redistributePhase (ro : Oracles) (r : Nat) (s : SState) : SState :=
  if r < NUM_ROUNDS then
    let newM := redistribute (s.grouping r)
    let s1 := { s with grouping := fun r' => if r' = r + 1 then newM else s.grouping r' }
    assignOptions ro (r + 1) s1
  else s

/-- One round of `page_sequence`: `SetupRoundWaitPage` (assign options),
the sequential decision pages, `ResultsWaitPage`, then
`RedistributeGroupsWaitPage`. -/
def runRound (ro : Oracles) (r : Nat) (s : SState) : SState :=
  redistributePhase ro r (settlePhase r (decidePhase ro r (assignOptions ro r s)))

/-- The state before round 1: all fields at their oTree initial values and
the round-1 grouping supplied by session creation. -/
def initState (init : List (List Nat)) : SState :=
  { opt := fun _ _ => none, optW := fun _ _ => 0, adv := fun _ _ => none,
    advW := fun _ _ => 0, choice := fun _ _ => none, followed := fun _ _ => 0,
    payoff := fun _ _ => 0, grouping := fun r => if r = 1 then init else [] }

/-- The session state after rounds `1..k` have run. -/
def runUpTo (ro : Oracles) (init : List (List Nat)) : Nat → SState
  | 0 => initState init
  | k + 1 => runRound ro (k + 1) (runUpTo ro init k)

/-- A participant's cumulative advisor-followed total over rounds `1..k`,
as summed by `RoundResults.vars_for_template` and `FinalResults`
(`sum(p.is_advisor_followed for p in self.in_all_rounds())`). -/
def totalFollowed (s : SState) (pid k : Nat) : Nat :=
  ((List.range k).map fun i => s.followed (i + 1) pid).sum

-- --------------------------------------------------------------------
-- Generic state-fold lemmas
-- --------------------------------------------------------------------

theorem update2_read {α : Type} (f : Nat → Nat → α) (i j x y : Nat) (v : α) :
    update2 f i j v x y = if x = i ∧ y = j then v else f x y := rfl

theorem foldl_state_pres {β : Type} (step : SState → β → SState)
    (P : SState → Prop) :
    ∀ (l : List β) (s : SState), (∀ st b, b ∈ l → P st → P (step st b)) →
      P s → P (l.foldl step s) := by
  intro l
  induction l with
  | nil => intro s _ hs; exact hs
  | cons b bs ih =>
    intro s hstep hs
    exact ih (step s b)
      (fun st b' hb' => hstep st b' (List.mem_cons_of_mem _ hb'))
      (hstep s b (List.mem_cons_self _ _) hs)

theorem foldCellsAux_pres (f : Nat → Nat → SState → SState) (P : SState → Prop) :
    ∀ (m : List (List Nat)) (gI : Nat) (s : SState),
      (∀ g q st, q ∈ m.flatten → P st → P (f g q st)) → P s →
      P (foldCellsAux f gI m s) := by
  intro m
  induction m with
  | nil => intro gI s _ hs; exact hs
  | cons row rest ih =>
    intro gI s hstep hs
    rw [foldCellsAux]
    apply ih (gI + 1)
    · intro g q st hq
      exact hstep g q st (by rw [List.flatten_cons]; exact List.mem_append_right _ hq)
    · exact foldl_state_pres _ P row s
        (fun st q hq =>
          hstep gI q st (by rw [List.flatten_cons]; exact List.mem_append_left _ hq))
        hs

-- --------------------------------------------------------------------
-- Characterisation of the option-assignment phase
-- --------------------------------------------------------------------

/-- The fold of `assign_successful_options` over the first `n` group
indices of round `r`. -/
def assignFold (ro : Oracles) (r n : Nat) (s : SState) : SState :=
  (List.range n).foldl
    (fun st g => writeOpt st r g (CHOICES.getD (ro.optDraw r g % CHOICES.length) "A"))
    s

theorem assignOptions_eq_fold (ro : Oracles) (r : Nat) (s : SState) :
    assignOptions ro r s = assignFold ro r (s.grouping r).length s := rfl

theorem assignFold_spec (ro : Oracles) (r : Nat) :
    ∀ (n : Nat) (s : SState),
      (∀ r' g', (assignFold ro r n s).opt r' g'
        = if r' = r ∧ g' < n
          then some (CHOICES.getD (ro.optDraw r g' % CHOICES.length) "A")
          else s.opt r' g') ∧
      (∀ r' g', (assignFold ro r n s).optW r' g'
        = if r' = r ∧ g' < n then s.optW r' g' + 1 else s.optW r' g') ∧
      (assignFold ro r n s).adv = s.adv ∧
      (assignFold ro r n s).advW = s.advW ∧
      (assignFold ro r n s).choice = s.choice ∧
      (assignFold ro r n s).followed = s.followed ∧
      (assignFold ro r n s).payoff = s.payoff ∧
      (assignFold ro r n s).grouping = s.grouping := by
  intro n
  induction n with
  | zero =>
    intro s
    refine ⟨?_, ?_, rfl, rfl, rfl, rfl, rfl, rfl⟩ <;>
      · intro r' g'
        simp [assignFold]
  | succ n ih =>
    intro s
    have hstep : assignFold ro r (n + 1) s
        = writeOpt (assignFold ro r n s) r n
            (CHOICES.getD (ro.optDraw r n % CHOICES.length) "A") := by
      rw [assignFold, List.range_succ, List.foldl_append]
      rfl
    rcases ih s with ⟨hopt, hoptW, hadv, hadvW, hch, hfo, hpa, hgr⟩
    rw [hstep]
    refine ⟨?_, ?_, hadv, hadvW, hch, hfo, hpa, hgr⟩
    · intro r' g'
      show update2 (assignFold ro r n s).opt r n _ r' g' = _
      rw [update2_read]
      by_cases h1 : r' = r ∧ g' = n
      · rcases h1 with ⟨h1a, h1b⟩
        rw [h1a, h1b, if_pos ⟨rfl, rfl⟩, if_pos ⟨rfl, Nat.lt_succ_self n⟩]
      · rw [if_neg h1, hopt r' g']
        by_cases h2 : r' = r ∧ g' < n
        · rw [if_pos h2, if_pos ⟨h2.1, Nat.lt_succ_of_lt h2.2⟩]
        · rw [if_neg h2, if_neg ?_]
          intro hcon
          have hne : g' ≠ n := fun hh => h1 ⟨hcon.1, hh⟩
          exact h2 ⟨hcon.1, by omega⟩
    · intro r' g'
      show update2 (assignFold ro r n s).optW r n _ r' g' = _
      rw [update2_read]
      by_cases h1 : r' = r ∧ g' = n
      · rcases h1 with ⟨h1a, h1b⟩
        rw [h1a, h1b, if_pos ⟨rfl, rfl⟩, if_pos ⟨rfl, Nat.lt_succ_self n⟩,
          hoptW r n, if_neg (by omega)]
      · rw [if_neg h1, hoptW r' g']
        by_cases h2 : r' = r ∧ g' < n
        · rw [if_pos h2, if_pos ⟨h2.1, Nat.lt_succ_of_lt h2.2⟩]
        · rw [if_neg h2, if_neg ?_]
          intro hcon
          have hne : g' ≠ n := fun hh => h1 ⟨hcon.1, hh⟩
          exact h2 ⟨hcon.1, by omega⟩

-- --------------------------------------------------------------------
-- Write footprints of the per-player steps
-- --------------------------------------------------------------------

theorem decideOne_opt (ro : Oracles) (r g q : Nat) (st : SState) :
    (decideOne ro r g q st).opt = st.opt := rfl

theorem decideOne_optW (ro : Oracles) (r g q : Nat) (st : SState) :
    (decideOne ro r g q st).optW = st.optW := rfl

theorem decideOne_followed (ro : Oracles) (r g q : Nat) (st : SState) :
    (decideOne ro r g q st).followed = st.followed := rfl

theorem decideOne_payoff (ro : Oracles) (r g q : Nat) (st : SState) :
    (decideOne ro r g q st).payoff = st.payoff := rfl

theorem decideOne_grouping (ro : Oracles) (r g q : Nat) (st : SState) :
    (decideOne ro r g q st).grouping = st.grouping := rfl

theorem decideOne_adv_same (ro : Oracles) (r g q : Nat) (st : SState) :
    (decideOne ro r g q st).adv r q
      = some (recommend ((st.opt r g).getD "")
          ADVISOR_CORRECTION_THRESHOLD_PERCENT (ro.advR r q) (ro.wrongDraw r q)) := by
  show update2 st.adv r q _ r q = _
  rw [update2_read, if_pos ⟨rfl, rfl⟩]

theorem decideOne_adv_other (ro : Oracles) (r g q r0 p0 : Nat) (st : SState)
    (h : ¬ (r0 = r ∧ p0 = q)) :
    (decideOne ro r g q st).adv r0 p0 = st.adv r0 p0 := by
  show update2 st.adv r q _ r0 p0 = _
  rw [update2_read, if_neg h]

theorem decideOne_advW_same (ro : Oracles) (r g q : Nat) (st : SState) :
    (decideOne ro r g q st).advW r q = st.advW r q + 1 := by
  show update2 st.advW r q _ r q = _
  rw [update2_read, if_pos ⟨rfl, rfl⟩]

theorem decideOne_advW_other (ro : Oracles) (r g q r0 p0 : Nat) (st : SState)
    (h : ¬ (r0 = r ∧ p0 = q)) :
    (decideOne ro r g q st).advW r0 p0 = st.advW r0 p0 := by
  show update2 st.advW r q _ r0 p0 = _
  rw [update2_read, if_neg h]

theorem decideOne_choice_same (ro : Oracles) (r g q : Nat) (st : SState) :
    (decideOne ro r g q st).choice r q
      = some (CHOICES.getD (ro.choiceDraw r q % CHOICES.length) "A") := by
  show update2 st.choice r q _ r q = _
  rw [update2_read, if_pos ⟨rfl, rfl⟩]

theorem decideOne_choice_other (ro : Oracles) (r g q r0 p0 : Nat) (st : SState)
    (h : ¬ (r0 = r ∧ p0 = q)) :
    (decideOne ro r g q st).choice r0 p0 = st.choice r0 p0 := by
  show update2 st.choice r q _ r0 p0 = _
  rw [update2_read, if_neg h]

theorem settleOne_opt (r g q : Nat) (st : SState) :
    (settleOne r g q st).opt = st.opt := by
  simp only [settleOne]
  split <;> rfl

theorem settleOne_optW (r g q : Nat) (st : SState) :
    (settleOne r g q st).optW = st.optW := by
  simp only [settleOne]
  split <;> rfl

theorem settleOne_adv (r g q : Nat) (st : SState) :
    (settleOne r g q st).adv = st.adv := by
  simp only [settleOne]
  split <;> rfl

theorem settleOne_advW (r g q : Nat) (st : SState) :
    (settleOne r g q st).advW = st.advW := by
  simp only [settleOne]
  split <;> rfl

theorem settleOne_choice (r g q : Nat) (st : SState) :
    (settleOne r g q st).choice = st.choice := by
  simp only [settleOne]
  split <;> rfl

theorem settleOne_grouping (r g q : Nat) (st : SState) :
    (settleOne r g q st).grouping = st.grouping := by
  simp only [settleOne]
  split <;> rfl

theorem settleOne_followed_same (r g q : Nat) (st : SState) :
    (settleOne r g q st).followed r q
      = if (st.choice r q).getD "" = (st.adv r q).getD ""
        then st.followed r q + 1 else st.followed r q := by
  simp only [settleOne]
  split
  · show update2 st.followed r q _ r q = _
    rw [update2_read, if_pos ⟨rfl, rfl⟩]
  · rfl

theorem settleOne_followed_other (r g q r0 p0 : Nat) (st : SState)
    (h : ¬ (r0 = r ∧ p0 = q)) :
    (settleOne r g q st).followed r0 p0 = st.followed r0 p0 := by
  simp only [settleOne]
  split
  · show update2 st.followed r q _ r0 p0 = _
    rw [update2_read, if_neg h]
  · rfl

theorem settleOne_payoff_other (r g q r0 p0 : Nat) (st : SState)
    (h : ¬ (r0 = r ∧ p0 = q)) :
    (settleOne r g q st).payoff r0 p0 = st.payoff r0 p0 := by
  simp only [settleOne]
  split <;>
    · show update2 st.payoff r q _ r0 p0 = _
      rw [update2_read, if_neg h]

-- --------------------------------------------------------------------
-- Phase-level characterisations
-- --------------------------------------------------------------------

theorem decideRow_spec (ro : Oracles) (r g pid : Nat) :
    ∀ (row : List Nat) (s : SState), row.Nodup → pid ∈ row →
      ((row.foldl (fun st q => decideOne ro r g q st) s).adv r pid
          = some (recommend ((s.opt r g).getD "")
              ADVISOR_CORRECTION_THRESHOLD_PERCENT (ro.advR r pid)
              (ro.wrongDraw r pid)) ∧
        (row.foldl (fun st q => decideOne ro r g q st) s).advW r pid
          = s.advW r pid + 1 ∧
        (row.foldl (fun st q => decideOne ro r g q st) s).choice r pid
          = some (CHOICES.getD (ro.choiceDraw r pid % CHOICES.length) "A")) := by
  intro row
  induction row with
  | nil => intro s _ hmem; simp at hmem
  | cons q rest ih =>
    intro s hnd hmem
    rcases List.nodup_cons.mp hnd with ⟨hq_notin, hnd'⟩
    rw [List.foldl_cons]
    by_cases hq : q = pid
    · subst hq
      apply foldl_state_pres (fun st q' => decideOne ro r g q' st)
        (fun st => st.adv r q = some (recommend ((s.opt r g).getD "")
            ADVISOR_CORRECTION_THRESHOLD_PERCENT (ro.advR r q)
            (ro.wrongDraw r q)) ∧
          st.advW r q = s.advW r q + 1 ∧
          st.choice r q
            = some (CHOICES.getD (ro.choiceDraw r q % CHOICES.length) "A"))
        rest (decideOne ro r g q s)
      · intro st b hb hP
        have hbq : ¬ (r = r ∧ q = b) := by
          rintro ⟨-, hc⟩
          exact hq_notin (by rw [hc]; exact hb)
        exact ⟨(decideOne_adv_other ro r g b r q st hbq).trans hP.1,
          (decideOne_advW_other ro r g b r q st hbq).trans hP.2.1,
          (decideOne_choice_other ro r g b r q st hbq).trans hP.2.2⟩
      · exact ⟨decideOne_adv_same ro r g q s, decideOne_advW_same ro r g q s,
          decideOne_choice_same ro r g q s⟩
    · have hmem' : pid ∈ rest :=
        (List.mem_cons.mp hmem).resolve_left fun h => hq h.symm
      have hkey : ¬ (r = r ∧ pid = q) := by
        rintro ⟨-, hc⟩
        exact hq hc.symm
      have hres := ih (decideOne ro r g q s) hnd' hmem'
      rwa [decideOne_opt, decideOne_advW_other ro r g q r pid s hkey] at hres

theorem decideCells_spec (ro : Oracles) (r pid : Nat) :
    ∀ (m : List (List Nat)) (gI : Nat) (s : SState), m.flatten.Nodup →
      pid ∈ m.flatten →
      ∃ a, (foldCellsAux (decideOne ro r) gI m s).adv r pid = some a ∧
        (foldCellsAux (decideOne ro r) gI m s).advW r pid = s.advW r pid + 1 ∧
        (foldCellsAux (decideOne ro r) gI m s).choice r pid
          = some (CHOICES.getD (ro.choiceDraw r pid % CHOICES.length) "A") := by
  intro m
  induction m with
  | nil => intro gI s _ hmem; simp at hmem
  | cons row rest ih =>
    intro gI s hnd hmem
    rw [List.flatten_cons] at hnd hmem
    rcases List.nodup_append.mp hnd with ⟨hnd_row, hnd_rest, hdisj⟩
    rw [foldCellsAux]
    rcases List.mem_append.mp hmem with hmemr | hmemr
    · rcases decideRow_spec ro r gI pid row s hnd_row hmemr with ⟨ha, hw, hc⟩
      refine ⟨recommend ((s.opt r gI).getD "")
        ADVISOR_CORRECTION_THRESHOLD_PERCENT (ro.advR r pid)
        (ro.wrongDraw r pid), ?_⟩
      apply foldCellsAux_pres (decideOne ro r)
        (fun st => st.adv r pid = some (recommend ((s.opt r gI).getD "")
            ADVISOR_CORRECTION_THRESHOLD_PERCENT (ro.advR r pid)
            (ro.wrongDraw r pid)) ∧
          st.advW r pid = s.advW r pid + 1 ∧
          st.choice r pid
            = some (CHOICES.getD (ro.choiceDraw r pid % CHOICES.length) "A"))
        rest (gI + 1)
      · intro g q st hqmem hP
        have hne : ¬ (r = r ∧ pid = q) := by
          rintro ⟨-, hc⟩
          exact (hdisj hmemr) (by rw [hc]; exact hqmem)
        exact ⟨(decideOne_adv_other ro r g q r pid st hne).trans hP.1,
          (decideOne_advW_other ro r g q r pid st hne).trans hP.2.1,
          (decideOne_choice_other ro r g q r pid st hne).trans hP.2.2⟩
      · exact ⟨ha, hw, hc⟩
    · have hw0 : (row.foldl (fun st q => decideOne ro r gI q st) s).advW r pid
          = s.advW r pid := by
        apply foldl_state_pres (fun st q => decideOne ro r gI q st)
          (fun st => st.advW r pid = s.advW r pid) row s
        · intro st b hb hP
          have hne : ¬ (r = r ∧ pid = b) := by
            rintro ⟨-, hc⟩
            exact (hdisj (by rw [hc]; exact hb)) hmemr
          exact (decideOne_advW_other ro r gI b r pid st hne).trans hP
        · rfl
      rcases ih (gI + 1) (row.foldl (fun st q => decideOne ro r gI q st) s)
        hnd_rest hmemr with ⟨a, ha, hw, hc⟩
      exact ⟨a, ha, by rw [hw, hw0], hc⟩

theorem settleRow_followed (r g pid : Nat) :
    ∀ (row : List Nat) (s : SState), row.Nodup → pid ∈ row →
      (row.foldl (fun st q => settleOne r g q st) s).followed r pid
        = if (s.choice r pid).getD "" = (s.adv r pid).getD ""
          then s.followed r pid + 1 else s.followed r pid := by
  intro row
  induction row with
  | nil => intro s _ hmem; simp at hmem
  | cons q rest ih =>
    intro s hnd hmem
    rcases List.nodup_cons.mp hnd with ⟨hq_notin, hnd'⟩
    rw [List.foldl_cons]
    by_cases hq : q = pid
    · subst hq
      apply foldl_state_pres (fun st q' => settleOne r g q' st)
        (fun st => st.followed r q
          = if (s.choice r q).getD "" = (s.adv r q).getD ""
            then s.followed r q + 1 else s.followed r q)
        rest (settleOne r g q s)
      · intro st b hb hP
        have hbq : ¬ (r = r ∧ q = b) := by
          rintro ⟨-, hc⟩
          exact hq_notin (by rw [hc]; exact hb)
        exact (settleOne_followed_other r g b r q st hbq).trans hP
      · exact settleOne_followed_same r g q s
    · have hmem' : pid ∈ rest :=
        (List.mem_cons.mp hmem).resolve_left fun h => hq h.symm
      have hkey : ¬ (r = r ∧ pid = q) := by
        rintro ⟨-, hc⟩
        exact hq hc.symm
      have hres := ih (settleOne r g q s) hnd' hmem'
      rwa [settleOne_choice, settleOne_adv,
        settleOne_followed_other r g q r pid s hkey] at hres

theorem settleCells_followed (r pid : Nat) :
    ∀ (m : List (List Nat)) (gI : Nat) (s : SState), m.flatten.Nodup →
      pid ∈ m.flatten →
      (foldCellsAux (settleOne r) gI m s).followed r pid
        = if (s.choice r pid).getD "" = (s.adv r pid).getD ""
          then s.followed r pid + 1 else s.followed r pid := by
  intro m
  induction m with
  | nil => intro gI s _ hmem; simp at hmem
  | cons row rest ih =>
    intro gI s hnd hmem
    rw [List.flatten_cons] at hnd hmem
    rcases List.nodup_append.mp hnd with ⟨hnd_row, hnd_rest, hdisj⟩
    rw [foldCellsAux]
    rcases List.mem_append.mp hmem with hmemr | hmemr
    · have hrow := settleRow_followed r gI pid row s hnd_row hmemr
      apply foldCellsAux_pres (settleOne r)
        (fun st => st.followed r pid
          = if (s.choice r pid).getD "" = (s.adv r pid).getD ""
            then s.followed r pid + 1 else s.followed r pid)
        rest (gI + 1)
      · intro g q st hqmem hP
        have hne : ¬ (r = r ∧ pid = q) := by
          rintro ⟨-, hc⟩
          exact (hdisj hmemr) (by rw [hc]; exact hqmem)
        exact (settleOne_followed_other r g q r pid st hne).trans hP
      · exact hrow
    · have hpres : (row.foldl (fun st q => settleOne r gI q st) s).choice
            = s.choice ∧
          (row.foldl (fun st q => settleOne r gI q st) s).adv = s.adv ∧
          (row.foldl (fun st q => settleOne r gI q st) s).followed r pid
            = s.followed r pid := by
        apply foldl_state_pres (fun st q => settleOne r gI q st)
          (fun st => st.choice = s.choice ∧ st.adv = s.adv ∧
            st.followed r pid = s.followed r pid) row s
        · intro st b hb hP
          have hne : ¬ (r = r ∧ pid = b) := by
            rintro ⟨-, hc⟩
            exact (hdisj (by rw [hc]; exact hb)) hmemr
          exact ⟨(settleOne_choice r gI b st).trans hP.1,
            (settleOne_adv r gI b st).trans hP.2.1,
            (settleOne_followed_other r gI b r pid st hne).trans hP.2.2⟩
        · exact ⟨rfl, rfl, rfl⟩
      have hres := ih (gI + 1) (row.foldl (fun st q => settleOne r gI q st) s)
        hnd_rest hmemr
      rwa [hpres.1, hpres.2.1, hpres.2.2] at hres

theorem decidePhase_frames (ro : Oracles) (r : Nat) (s : SState) :
    (decidePhase ro r s).opt = s.opt ∧ (decidePhase ro r s).optW = s.optW ∧
    (decidePhase ro r s).followed = s.followed ∧
    (decidePhase ro r s).payoff = s.payoff ∧
    (decidePhase ro r s).grouping = s.grouping := by
  unfold decidePhase
  exact ⟨foldCellsAux_pres (decideOne ro r) (fun st => st.opt = s.opt) _ 0 s
      (fun g q st _ h => h) rfl,
    foldCellsAux_pres (decideOne ro r) (fun st => st.optW = s.optW) _ 0 s
      (fun g q st _ h => h) rfl,
    foldCellsAux_pres (decideOne ro r) (fun st => st.followed = s.followed) _ 0 s
      (fun g q st _ h => h) rfl,
    foldCellsAux_pres (decideOne ro r) (fun st => st.payoff = s.payoff) _ 0 s
      (fun g q st _ h => h) rfl,
    foldCellsAux_pres (decideOne ro r) (fun st => st.grouping = s.grouping) _ 0 s
      (fun g q st _ h => h) rfl⟩

theorem decidePhase_other_round (ro : Oracles) (r : Nat) (s : SState)
    (r0 p0 : Nat) (h : r0 ≠ r) :
    (decidePhase ro r s).adv r0 p0 = s.adv r0 p0 ∧
    (decidePhase ro r s).advW r0 p0 = s.advW r0 p0 ∧
    (decidePhase ro r s).choice r0 p0 = s.choice r0 p0 := by
  unfold decidePhase
  apply foldCellsAux_pres (decideOne ro r)
    (fun st => st.adv r0 p0 = s.adv r0 p0 ∧ st.advW r0 p0 = s.advW r0 p0 ∧
      st.choice r0 p0 = s.choice r0 p0) _ 0 s
  · intro g q st _ hP
    have hne : ¬ (r0 = r ∧ p0 = q) := by
      rintro ⟨hc, -⟩
      exact h hc
    exact ⟨(decideOne_adv_other ro r g q r0 p0 st hne).trans hP.1,
      (decideOne_advW_other ro r g q r0 p0 st hne).trans hP.2.1,
      (decideOne_choice_other ro r g q r0 p0 st hne).trans hP.2.2⟩
  · exact ⟨rfl, rfl, rfl⟩

theorem settlePhase_frames (r : Nat) (s : SState) :
    (settlePhase r s).opt = s.opt ∧ (settlePhase r s).optW = s.optW ∧
    (settlePhase r s).adv = s.adv ∧ (settlePhase r s).advW = s.advW ∧
    (settlePhase r s).choice = s.choice ∧
    (settlePhase r s).grouping = s.grouping := by
  unfold settlePhase
  refine ⟨?_, ?_, ?_, ?_, ?_, ?_⟩
  · exact foldCellsAux_pres _ _ _ 0 s
      (fun g q st _ h => (settleOne_opt r g q st).trans h) rfl
  · exact foldCellsAux_pres _ _ _ 0 s
      (fun g q st _ h => (settleOne_optW r g q st).trans h) rfl
  · exact foldCellsAux_pres _ _ _ 0 s
      (fun g q st _ h => (settleOne_adv r g q st).trans h) rfl
  · exact foldCellsAux_pres _ _ _ 0 s
      (fun g q st _ h => (settleOne_advW r g q st).trans h) rfl
  · exact foldCellsAux_pres _ _ _ 0 s
      (fun g q st _ h => (settleOne_choice r g q st).trans h) rfl
  · exact foldCellsAux_pres _ _ _ 0 s
      (fun g q st _ h => (settleOne_grouping r g q st).trans h) rfl

theorem settlePhase_other_round (r : Nat) (s : SState) (r0 p0 : Nat)
    (h : r0 ≠ r) :
    (settlePhase r s).followed r0 p0 = s.followed r0 p0 := by
  unfold settlePhase
  apply foldCellsAux_pres (settleOne r)
    (fun st => st.followed r0 p0 = s.followed r0 p0) _ 0 s
  · intro g q st _ hP
    have hne : ¬ (r0 = r ∧ p0 = q) := by
      rintro ⟨hc, -⟩
      exact h hc
    exact (settleOne_followed_other r g q r0 p0 st hne).trans hP
  · rfl

theorem redistributePhase_player_frames (ro : Oracles) (r : Nat) (s : SState) :
    (redistributePhase ro r s).adv = s.adv ∧
    (redistributePhase ro r s).advW = s.advW ∧
    (redistributePhase ro r s).choice = s.choice ∧
    (redistributePhase ro r s).followed = s.followed := by
  unfold redistributePhase
  split
  · rw [assignOptions_eq_fold]
    rcases assignFold_spec ro (r + 1) _ _ with
      ⟨-, -, hadv, hadvW, hch, hfo, -, -⟩
    exact ⟨hadv, hadvW, hch, hfo⟩
  · exact ⟨rfl, rfl, rfl, rfl⟩

theorem redistributePhase_opt_other (ro : Oracles) (r : Nat) (s : SState)
    (r0 g0 : Nat) (h : r0 ≠ r + 1) :
    (redistributePhase ro r s).opt r0 g0 = s.opt r0 g0 ∧
    (redistributePhase ro r s).optW r0 g0 = s.optW r0 g0 := by
  unfold redistributePhase
  split
  · rw [assignOptions_eq_fold]
    rcases assignFold_spec ro (r + 1) _ _ with ⟨hopt, hoptW, -⟩
    constructor
    · rw [hopt r0 g0, if_neg (by rintro ⟨hc, -⟩; exact h hc)]
    · rw [hoptW r0 g0, if_neg (by rintro ⟨hc, -⟩; exact h hc)]
  · exact ⟨rfl, rfl⟩

theorem redistributePhase_grouping_other (ro : Oracles) (r : Nat) (s : SState)
    (r0 : Nat) (h : r0 ≠ r + 1) :
    (redistributePhase ro r s).grouping r0 = s.grouping r0 := by
  unfold redistributePhase
  split
  · rw [assignOptions_eq_fold]
    rcases assignFold_spec ro (r + 1) _ _ with ⟨-, -, -, -, -, -, -, hgr⟩
    rw [hgr]
    exact if_neg h
  · rfl

theorem assignOptions_spec (ro : Oracles) (r : Nat) (s : SState) :
    (∀ r' g', (assignOptions ro r s).opt r' g'
      = if r' = r ∧ g' < (s.grouping r).length
        then some (CHOICES.getD (ro.optDraw r g' % CHOICES.length) "A")
        else s.opt r' g') ∧
    (∀ r' g', (assignOptions ro r s).optW r' g'
      = if r' = r ∧ g' < (s.grouping r).length
        then s.optW r' g' + 1 else s.optW r' g') ∧
    (assignOptions ro r s).adv = s.adv ∧
    (assignOptions ro r s).advW = s.advW ∧
    (assignOptions ro r s).choice = s.choice ∧
    (assignOptions ro r s).followed = s.followed ∧
    (assignOptions ro r s).payoff = s.payoff ∧
    (assignOptions ro r s).grouping = s.grouping := by
  rw [assignOptions_eq_fold]
  exact assignFold_spec ro r _ s

theorem runRound_opt_frame (ro : Oracles) (r : Nat) (s : SState)
    (r0 g0 : Nat) (h1 : r0 ≠ r) (h2 : r0 ≠ r + 1) :
    (runRound ro r s).opt r0 g0 = s.opt r0 g0 ∧
    (runRound ro r s).optW r0 g0 = s.optW r0 g0 := by
  unfold runRound
  rcases redistributePhase_opt_other ro r
    (settlePhase r (decidePhase ro r (assignOptions ro r s))) r0 g0 h2 with
    ⟨hR1, hR2⟩
  rcases settlePhase_frames r (decidePhase ro r (assignOptions ro r s)) with
    ⟨hS1, hS2, -⟩
  rcases decidePhase_frames ro r (assignOptions ro r s) with ⟨hD1, hD2, -⟩
  rcases assignOptions_spec ro r s with ⟨hA1, hA2, -⟩
  constructor
  · rw [hR1, hS1, hD1, hA1 r0 g0, if_neg (by rintro ⟨hc, -⟩; exact h1 hc)]
  · rw [hR2, hS2, hD2, hA2 r0 g0, if_neg (by rintro ⟨hc, -⟩; exact h1 hc)]

theorem runRound_player_frame (ro : Oracles) (r : Nat) (s : SState)
    (r0 p0 : Nat) (h : r0 ≠ r) :
    (runRound ro r s).adv r0 p0 = s.adv r0 p0 ∧
    (runRound ro r s).advW r0 p0 = s.advW r0 p0 ∧
    (runRound ro r s).choice r0 p0 = s.choice r0 p0 ∧
    (runRound ro r s).followed r0 p0 = s.followed r0 p0 := by
  unfold runRound
  rcases redistributePhase_player_frames ro r
    (settlePhase r (decidePhase ro r (assignOptions ro r s))) with
    ⟨hR1, hR2, hR3, hR4⟩
  rcases settlePhase_frames r (decidePhase ro r (assignOptions ro r s)) with
    ⟨-, -, hS3, hS4, hS5, -⟩
  have hS6 := settlePhase_other_round r (decidePhase ro r (assignOptions ro r s))
    r0 p0 h
  rcases decidePhase_other_round ro r (assignOptions ro r s) r0 p0 h with
    ⟨hD1, hD2, hD3⟩
  rcases decidePhase_frames ro r (assignOptions ro r s) with ⟨-, -, hD4, -, -⟩
  rcases assignOptions_spec ro r s with ⟨-, -, hA3, hA4, hA5, hA6, -, -⟩
  refine ⟨?_, ?_, ?_, ?_⟩
  · rw [hR1, hS3, hD1, hA3]
  · rw [hR2, hS4, hD2, hA4]
  · rw [hR3, hS5, hD3, hA5]
  · rw [hR4, hS6, hD4, hA6]

theorem runRound_grouping_frame (ro : Oracles) (r : Nat) (s : SState)
    (r0 : Nat) (h : r0 ≠ r + 1) :
    (runRound ro r s).grouping r0 = s.grouping r0 := by
  unfold runRound
  rw [redistributePhase_grouping_other ro r _ r0 h]
  rcases settlePhase_frames r (decidePhase ro r (assignOptions ro r s)) with
    ⟨-, -, -, -, -, hS⟩
  rcases decidePhase_frames ro r (assignOptions ro r s) with ⟨-, -, -, -, hD⟩
  rcases assignOptions_spec ro r s with ⟨-, -, -, -, -, -, -, hA⟩
  rw [hS, hD, hA]

-- --------------------------------------------------------------------
-- Session-level lemmas
-- --------------------------------------------------------------------

theorem runUpTo_succ (ro : Oracles) (init : List (List Nat)) (k : Nat) :
    runUpTo ro init (k + 1) = runRound ro (k + 1) (runUpTo ro init k) := rfl

theorem choices_getD_mem (i : Nat) :
    CHOICES.getD (i % CHOICES.length) "A" ∈ CHOICES := by
  have h : i % CHOICES.length < CHOICES.length := Nat.mod_lt _ (by decide)
  rw [List.getD_eq_getElem _ _ h]
  exact List.getElem_mem h

theorem runUpTo_advW_before (ro : Oracles) (init : List (List Nat))
    (r pid : Nat) : ∀ k, k < r → (runUpTo ro init k).advW r pid = 0 := by
  intro k
  induction k with
  | zero => intro _; rfl
  | succ k ih =>
    intro hk
    rw [runUpTo_succ]
    rcases runRound_player_frame ro (k + 1) (runUpTo ro init k) r pid
      (by omega) with ⟨-, hW, -, -⟩
    rw [hW, ih (by omega)]

theorem runUpTo_followed_before (ro : Oracles) (init : List (List Nat))
    (r pid : Nat) : ∀ k, k < r → (runUpTo ro init k).followed r pid = 0 := by
  intro k
  induction k with
  | zero => intro _; rfl
  | succ k ih =>
    intro hk
    rw [runUpTo_succ]
    rcases runRound_player_frame ro (k + 1) (runUpTo ro init k) r pid
      (by omega) with ⟨-, -, -, hF⟩
    rw [hF, ih (by omega)]

theorem runUpTo_opt_stable (ro : Oracles) (init : List (List Nat))
    (r g : Nat) :
    ∀ k, r ≤ k →
      (runUpTo ro init k).opt r g = (runUpTo ro init r).opt r g ∧
      (runUpTo ro init k).optW r g = (runUpTo ro init r).optW r g := by
  intro k hk
  induction k, hk using Nat.le_induction with
  | base => exact ⟨rfl, rfl⟩
  | succ k hk ih =>
    rw [runUpTo_succ]
    rcases runRound_opt_frame ro (k + 1) (runUpTo ro init k) r g
      (by omega) (by omega) with ⟨ho, hw⟩
    exact ⟨ho.trans ih.1, hw.trans ih.2⟩

theorem runUpTo_player_stable (ro : Oracles) (init : List (List Nat))
    (r pid : Nat) :
    ∀ k, r ≤ k →
      (runUpTo ro init k).adv r pid = (runUpTo ro init r).adv r pid ∧
      (runUpTo ro init k).advW r pid = (runUpTo ro init r).advW r pid ∧
      (runUpTo ro init k).choice r pid = (runUpTo ro init r).choice r pid ∧
      (runUpTo ro init k).followed r pid = (runUpTo ro init r).followed r pid := by
  intro k hk
  induction k, hk using Nat.le_induction with
  | base => exact ⟨rfl, rfl, rfl, rfl⟩
  | succ k hk ih =>
    rw [runUpTo_succ]
    rcases runRound_player_frame ro (k + 1) (runUpTo ro init k) r pid
      (by omega) with ⟨h1, h2, h3, h4⟩
    exact ⟨h1.trans ih.1, h2.trans ih.2.1, h3.trans ih.2.2.1,
      h4.trans ih.2.2.2⟩

theorem decidePhase_spec (ro : Oracles) (r pid : Nat) (s : SState)
    (hnd : (s.grouping r).flatten.Nodup)
    (hmem : pid ∈ (s.grouping r).flatten) :
    ∃ a, (decidePhase ro r s).adv r pid = some a ∧
      (decidePhase ro r s).advW r pid = s.advW r pid + 1 ∧
      (decidePhase ro r s).choice r pid
        = some (CHOICES.getD (ro.choiceDraw r pid % CHOICES.length) "A") :=
  decideCells_spec ro r pid (s.grouping r) 0 s hnd hmem

theorem settlePhase_followed_spec (r pid : Nat) (s : SState)
    (hnd : (s.grouping r).flatten.Nodup)
    (hmem : pid ∈ (s.grouping r).flatten) :
    (settlePhase r s).followed r pid
      = if (s.choice r pid).getD "" = (s.adv r pid).getD ""
        then s.followed r pid + 1 else s.followed r pid :=
  settleCells_followed r pid (s.grouping r) 0 s hnd hmem

/-- Full per-round account of one player's advisor data in a session: the
recommendation is written at the decision page, keeps that value to the end
of the session, its write counter over the whole session is exactly 1, the
stored choice persists, and the settled counter equals the indicator of
"stored choice equals persisted recommendation". -/
theorem runSession_round_player (ro : Oracles) (init : List (List Nat))
    (r pid : Nat) (h1 : 1 ≤ r) (h2 : r ≤ NUM_ROUNDS)
    (hnd : ((runUpTo ro init (r - 1)).grouping r).flatten.Nodup)
    (hmem : pid ∈ ((runUpTo ro init (r - 1)).grouping r).flatten) :
    ∃ a c,
      (decidePhase ro r (assignOptions ro r (runUpTo ro init (r - 1)))).adv r pid
        = some a ∧
      (runUpTo ro init NUM_ROUNDS).adv r pid = some a ∧
      (runUpTo ro init NUM_ROUNDS).advW r pid = 1 ∧
      (runUpTo ro init NUM_ROUNDS).choice r pid = some c ∧
      (runUpTo ro init NUM_ROUNDS).followed r pid = (if c = a then 1 else 0) := by
  obtain ⟨r', rfl⟩ : ∃ r', r = r' + 1 := ⟨r - 1, by omega⟩
  simp only [Nat.add_sub_cancel] at hnd hmem ⊢
  rcases assignOptions_spec ro (r' + 1) (runUpTo ro init r') with
    ⟨-, -, -, hA_advW, hA_ch, hA_fo, -, hA_gr⟩
  have hnd' : ((assignOptions ro (r' + 1) (runUpTo ro init r')).grouping
      (r' + 1)).flatten.Nodup := by
    rw [hA_gr]; exact hnd
  have hmem' : pid ∈ ((assignOptions ro (r' + 1) (runUpTo ro init r')).grouping
      (r' + 1)).flatten := by
    rw [hA_gr]; exact hmem
  rcases decidePhase_spec ro (r' + 1) pid
    (assignOptions ro (r' + 1) (runUpTo ro init r')) hnd' hmem' with
    ⟨a, hDadv, hDw, hDch⟩
  refine ⟨a, CHOICES.getD (ro.choiceDraw (r' + 1) pid % CHOICES.length) "A",
    hDadv, ?_⟩
  rcases decidePhase_frames ro (r' + 1)
    (assignOptions ro (r' + 1) (runUpTo ro init r')) with
    ⟨-, -, hD_fo, -, hD_gr⟩
  have hndD : (((decidePhase ro (r' + 1)
      (assignOptions ro (r' + 1) (runUpTo ro init r')))).grouping
      (r' + 1)).flatten.Nodup := by
    rw [hD_gr, hA_gr]; exact hnd
  have hmemD : pid ∈ (((decidePhase ro (r' + 1)
      (assignOptions ro (r' + 1) (runUpTo ro init r')))).grouping
      (r' + 1)).flatten := by
    rw [hD_gr, hA_gr]; exact hmem
  have hSfol := settlePhase_followed_spec (r' + 1) pid
    (decidePhase ro (r' + 1) (assignOptions ro (r' + 1) (runUpTo ro init r')))
    hndD hmemD
  rcases settlePhase_frames (r' + 1)
    (decidePhase ro (r' + 1) (assignOptions ro (r' + 1) (runUpTo ro init r')))
    with ⟨-, -, hS_adv, hS_advW, hS_ch, -⟩
  rcases redistributePhase_player_frames ro (r' + 1)
    (settlePhase (r' + 1)
      (decidePhase ro (r' + 1) (assignOptions ro (r' + 1) (runUpTo ro init r'))))
    with ⟨hR_adv, hR_advW, hR_ch, hR_fo⟩
  have hrun : runUpTo ro init (r' + 1)
      = redistributePhase ro (r' + 1)
          (settlePhase (r' + 1)
            (decidePhase ro (r' + 1)
              (assignOptions ro (r' + 1) (runUpTo ro init r')))) := rfl
  rcases runUpTo_player_stable ro init (r' + 1) pid NUM_ROUNDS h2 with
    ⟨hT_adv, hT_advW, hT_ch, hT_fo⟩
  have hadv_final : (runUpTo ro init NUM_ROUNDS).adv (r' + 1) pid = some a := by
    rw [hT_adv, hrun]
    rw [show (redistributePhase ro (r' + 1)
        (settlePhase (r' + 1)
          (decidePhase ro (r' + 1)
            (assignOptions ro (r' + 1) (runUpTo ro init r'))))).adv
        = (settlePhase (r' + 1)
            (decidePhase ro (r' + 1)
              (assignOptions ro (r' + 1) (runUpTo ro init r')))).adv from hR_adv,
      hS_adv, hDadv]
  have hadvW_final : (runUpTo ro init NUM_ROUNDS).advW (r' + 1) pid = 1 := by
    rw [hT_advW, hrun,
      show (redistributePhase ro (r' + 1)
        (settlePhase (r' + 1)
          (decidePhase ro (r' + 1)
            (assignOptions ro (r' + 1) (runUpTo ro init r'))))).advW
        = (settlePhase (r' + 1)
            (decidePhase ro (r' + 1)
              (assignOptions ro (r' + 1) (runUpTo ro init r')))).advW from hR_advW,
      hS_advW, hDw, hA_advW, runUpTo_advW_before ro init (r' + 1) pid r' (by omega)]
  have hch_final : (runUpTo ro init NUM_ROUNDS).choice (r' + 1) pid
      = some (CHOICES.getD (ro.choiceDraw (r' + 1) pid % CHOICES.length) "A") := by
    rw [hT_ch, hrun,
      show (redistributePhase ro (r' + 1)
        (settlePhase (r' + 1)
          (decidePhase ro (r' + 1)
            (assignOptions ro (r' + 1) (runUpTo ro init r'))))).choice
        = (settlePhase (r' + 1)
            (decidePhase ro (r' + 1)
              (assignOptions ro (r' + 1) (runUpTo ro init r')))).choice from hR_ch,
      hS_ch, hDch]
  have hfol_final : (runUpTo ro init NUM_ROUNDS).followed (r' + 1) pid
      = (if CHOICES.getD (ro.choiceDraw (r' + 1) pid % CHOICES.length) "A" = a
         then 1 else 0) := by
    rw [hT_fo, hrun,
      show (redistributePhase ro (r' + 1)
        (settlePhase (r' + 1)
          (decidePhase ro (r' + 1)
            (assignOptions ro (r' + 1) (runUpTo ro init r'))))).followed
        = (settlePhase (r' + 1)
            (decidePhase ro (r' + 1)
              (assignOptions ro (r' + 1) (runUpTo ro init r')))).followed from hR_fo,
      hSfol, hDch, hDadv, hD_fo, hA_fo,
      runUpTo_followed_before ro init (r' + 1) pid r' (by omega)]
    simp
  exact ⟨hadv_final, hadvW_final, hch_final, hfol_final⟩

/-- Claim C2: in every round `r`, every group of that round gets its
`successful_option` assigned a member of `CHOICES` by the round's
`SetupRoundWaitPage` — the state on which all of that round's
`Decision`/turn-gate evaluations then run — this is the only write to the
field during round `r` (the write counter rises by exactly one over the
round, inside `assignOptions`), and the field and its write counter keep
exactly those values to the end of the session. -/
theorem successful_option_assigned_before_decisions (ro : Oracles)
    (init : List (List Nat)) (r g : Nat) (h1 : 1 ≤ r) (h2 : r ≤ NUM_ROUNDS)
    (hg : g < ((runUpTo ro init (r - 1)).grouping r).length) :
    (∃ v, (assignOptions ro r (runUpTo ro init (r - 1))).opt r g = some v ∧
      v ∈ CHOICES) ∧
    (assignOptions ro r (runUpTo ro init (r - 1))).optW r g
      = (runUpTo ro init (r - 1)).optW r g + 1 ∧
    (runUpTo ro init NUM_ROUNDS).opt r g
      = (assignOptions ro r (runUpTo ro init (r - 1))).opt r g ∧
    (runUpTo ro init NUM_ROUNDS).optW r g
      = (assignOptions ro r (runUpTo ro init (r - 1))).optW r g := by
  obtain ⟨r', rfl⟩ : ∃ r', r = r' + 1 := ⟨r - 1, by omega⟩
  simp only [Nat.add_sub_cancel] at hg ⊢
  rcases assignOptions_spec ro (r' + 1) (runUpTo ro init r') with
    ⟨hopt, hoptW, -⟩
  have hA_opt : (assignOptions ro (r' + 1) (runUpTo ro init r')).opt (r' + 1) g
      = some (CHOICES.getD (ro.optDraw (r' + 1) g % CHOICES.length) "A") := by
    rw [hopt (r' + 1) g, if_pos ⟨rfl, hg⟩]
  have hA_optW : (assignOptions ro (r' + 1) (runUpTo ro init r')).optW (r' + 1) g
      = (runUpTo ro init r').optW (r' + 1) g + 1 := by
    rw [hoptW (r' + 1) g, if_pos ⟨rfl, hg⟩]
  rcases decidePhase_frames ro (r' + 1)
    (assignOptions ro (r' + 1) (runUpTo ro init r')) with ⟨hD1, hD2, -⟩
  rcases settlePhase_frames (r' + 1)
    (decidePhase ro (r' + 1) (assignOptions ro (r' + 1) (runUpTo ro init r')))
    with ⟨hS1, hS2, -⟩
  rcases redistributePhase_opt_other ro (r' + 1)
    (settlePhase (r' + 1)
      (decidePhase ro (r' + 1) (assignOptions ro (r' + 1) (runUpTo ro init r'))))
    (r' + 1) g (by omega) with ⟨hR1, hR2⟩
  have hrun : runUpTo ro init (r' + 1)
      = redistributePhase ro (r' + 1)
          (settlePhase (r' + 1)
            (decidePhase ro (r' + 1)
              (assignOptions ro (r' + 1) (runUpTo ro init r')))) := rfl
  rcases runUpTo_opt_stable ro init (r' + 1) g NUM_ROUNDS h2 with ⟨hT1, hT2⟩
  refine ⟨⟨_, hA_opt, choices_getD_mem _⟩, hA_optW, ?_, ?_⟩
  · rw [hT1, hrun, hR1, hS1, hD1]
  · rw [hT2, hrun, hR2, hS2, hD2]

/-- Claim C7: for every player and round, the advisor recommendation is
computed exactly once, at that player's decision page (the session-wide
write counter of `advisor_option` ends at exactly 1), persisted to
`advisor_option`, never overwritten afterwards, and the settling phase
(and any later read-only display) reads exactly the persisted value: the
final counter equals the indicator comparing the stored choice with that
same persisted recommendation. -/
theorem advisor_recommendation_once_and_persisted (ro : Oracles)
    (init : List (List Nat)) (r pid : Nat) (h1 : 1 ≤ r) (h2 : r ≤ NUM_ROUNDS)
    (hnd : ((runUpTo ro init (r - 1)).grouping r).flatten.Nodup)
    (hmem : pid ∈ ((runUpTo ro init (r - 1)).grouping r).flatten) :
    ∃ a c,
      (decidePhase ro r (assignOptions ro r (runUpTo ro init (r - 1)))).adv r pid
        = some a ∧
      (runUpTo ro init NUM_ROUNDS).adv r pid = some a ∧
      (runUpTo ro init NUM_ROUNDS).advW r pid = 1 ∧
      (runUpTo ro init NUM_ROUNDS).choice r pid = some c ∧
      (runUpTo ro init NUM_ROUNDS).followed r pid = (if c = a then 1 else 0) :=
  runSession_round_player ro init r pid h1 h2 hnd hmem

/-- The oracle values of the concrete counterexample session: every group's
successful option is `"A"`, the advisor always tells the truth (draw 0 is
below the threshold 70), and every player picks `"A"` in round 1 but `"B"`
from round 2 on. -/
def followThenDeviateOracles : Oracles :=
  { optDraw := fun _ _ => 0, advR := fun _ _ => 0, wrongDraw := fun _ _ => 0,
    choiceDraw := fun r _ => if r = 1 then 0 else 1 }

/-- The canonical round-1 grouping of the nine participants. -/
def initGrouping9 : List (List Nat) := [[1, 2, 3], [4, 5, 6], [7, 8, 9]]

/-- Claim C8 counterexample: `is_advisor_followed` is a per-round field
with initial value 0, not a cumulative counter, so the sequence of values
read across a participant's rounds can decrease: participant 1 follows the
advisor in round 1 (value 1) and deviates in round 2 (value 0). -/
theorem advisor_followed_values_not_monotone :
    (runUpTo followThenDeviateOracles initGrouping9 NUM_ROUNDS).followed 1 1 = 1 ∧
    (runUpTo followThenDeviateOracles initGrouping9 NUM_ROUNDS).followed 2 1 = 0 ∧
    ¬ ((runUpTo followThenDeviateOracles initGrouping9 NUM_ROUNDS).followed 1 1
        ≤ (runUpTo followThenDeviateOracles initGrouping9 NUM_ROUNDS).followed 2 1) := by
  exact ⟨by decide, by decide, by decide⟩

/-- Claim C8 (amended): each round's `is_advisor_followed` value starts at
the per-round initial 0 and is incremented by at most 1, so every value of
the per-round sequence is 0 or 1 (in particular it is not a cumulative
counter and the per-round sequence need not be non-decreasing); the
cumulative totals read by the results pages (partial sums across rounds)
are monotonically non-decreasing, each round adding at most 1. -/
theorem advisor_followed_flag_and_cumulative_monotone (ro : Oracles)
    (init : List (List Nat)) (pid : Nat) :
    (∀ r, 1 ≤ r → r ≤ NUM_ROUNDS →
      ((runUpTo ro init (r - 1)).grouping r).flatten.Nodup →
      pid ∈ ((runUpTo ro init (r - 1)).grouping r).flatten →
      (runUpTo ro init NUM_ROUNDS).followed r pid ≤ 1) ∧
    (∀ k, totalFollowed (runUpTo ro init NUM_ROUNDS) pid k
        ≤ totalFollowed (runUpTo ro init NUM_ROUNDS) pid (k + 1) ∧
      totalFollowed (runUpTo ro init NUM_ROUNDS) pid (k + 1)
        ≤ totalFollowed (runUpTo ro init NUM_ROUNDS) pid k
            + (runUpTo ro init NUM_ROUNDS).followed (k + 1) pid) := by
  constructor
  · intro r h1 h2 hnd hmem
    rcases runSession_round_player ro init r pid h1 h2 hnd hmem with
      ⟨a, c, -, -, -, -, hfol⟩
    rw [hfol]
    split <;> omega
  · intro k
    constructor <;>
      · rw [totalFollowed, totalFollowed, List.range_succ, List.map_append,
          List.sum_append]
        simp

-- --------------------------------------------------------------------
-- Custom CSV export (custom_export, lines 269-349)
-- --------------------------------------------------------------------

/-- The group a player row points to, exposing only the field the export
reads through `field_maybe_none('successful_option')`. -/
structure GroupRef where
  successful_option : Option String
deriving DecidableEq

/-- One `Player` row as the export reads it: its session's internal id and
code, its participant's code, and the four fields used for the metrics.
`is_advisor_followed` and `payoff` have oTree initial values (0), so they
are never null; `investment_choice` is null until submitted. -/
structure ExpPlayer where
  sessionId : Nat
  sessionCode : String
  participantCode : String
  investment_choice : Option String
  group : Option GroupRef
  is_advisor_followed : Nat
  payoff : Int
deriving DecidableEq

/-- One participant row of the export (lines 342-349). -/
structure PRow where
  custom_id : String
  participant_code : String
  num_correct : Nat
  num_incorrect : Int
  times_followed_adviser : Nat
  total_payoff : Int
deriving DecidableEq

/-- `max(players, key=lambda p: p.session.id)` (line 281): Python's `max`
keeps the first element with the maximal key, replacing the current best
only on a strictly larger key. -/
def latestOf (x : ExpPlayer) (xs : List ExpPlayer) : ExpPlayer :=
  xs.foldl (fun best p => if best.sessionId < p.sessionId then p else best) x

/-- `participants.setdefault(part_code, []).append(p)` (line 290) on an
insertion-ordered dict, modelled as an association list. -/
def insertGrouped : List (String × List ExpPlayer) → String → ExpPlayer →
    List (String × List ExpPlayer)
  | [], k, p => [(k, [p])]
  | (k', l) :: rest, k, p =>
    if k' = k then (k', l ++ [p]) :: rest
    else (k', l) :: insertGrouped rest k p

/-- The grouping loop of lines 287-290. -/
def groupByParticipant (ps : List ExpPlayer) : List (String × List ExpPlayer) :=
  ps.foldl (fun acc p => insertGrouped acc p.participantCode p) []

/-- `num_correct` (lines 327-336): count the rounds whose guard chain
`pp.investment_choice and pp.group and
pp.group.field_maybe_none('successful_option') == pp.investment_choice`
is true.  The first conjunct reads the nullable `investment_choice` field
directly; in oTree reading a null field raises `TypeError`, which aborts
the whole generator (modelled as `Except.error`).  A falsy (empty) string
or a missing group short-circuits to false; `field_maybe_none` returns
`None` safely and `None == <str>` is false. -/
def numCorrect : List ExpPlayer → Except String Nat
  | [] => .ok 0
  | pp :: rest =>
    match pp.investment_choice with
    | none => .error "investment_choice is None"
    | some c =>
      match numCorrect rest with
      | .error e => .error e
      | .ok n =>
        let cond : Bool := (!(c = "")) &&
          (match pp.group with
           | none => false
           | some g =>
             match g.successful_option with
             | none => false
             | some so => so = c)
        .ok ((if cond then 1 else 0) + n)

/-- One participant row (lines 316-349): `num_incorrect` is
`NUM_ROUNDS - num_correct` (line 338), the two totals mirror the
`or 0` sums of lines 339-340 (the fields have initial value 0, so the
`or 0` never changes a value). -/
def participantRow (idx : Nat) (code : String) (pls : List ExpPlayer) :
    Except String PRow :=
  match numCorrect pls with
  | .error e => .error e
  | .ok nc =>
    .ok { custom_id := "P" ++ toString idx,
          participant_code := code,
          num_correct := nc,
          num_incorrect := (NUM_ROUNDS : Int) - nc,
          times_followed_adviser := (pls.map fun pp => pp.is_advisor_followed).sum,
          total_payoff := (pls.map fun pp => pp.payoff).sum }

/-- The participant-row loop (lines 316-349), numbering rows from `idx`. -/
def participantRows : Nat → List (String × List ExpPlayer) →
    Except String (List PRow)
  | _, [] => .ok []
  | idx, (code, pls) :: rest =>
    match participantRow idx code pls with
    | .error e => .error e
    | .ok row =>
      match participantRows (idx + 1) rest with
      | .error e => .error e
      | .ok rows => .ok (row :: rows)

/-- `custom_export` (lines 269-349), modelling the participant rows it
yields (the fixed experiment-settings preamble and the header row, lines
293-312, are constants and are not modelled): with no players nothing is
exported; otherwise only the players of the session of maximal internal id
are kept, grouped by participant code, and one row is emitted per
participant of that session. -/
def custom_export : List ExpPlayer → Except String (List PRow)
  | [] => .ok []
  | x :: xs =>
    participantRows 1 (groupByParticipant
      ((x :: xs).filter fun p => p.sessionCode = (latestOf x xs).sessionCode))

theorem foldl_inv {α β : Type} (step : β → α → β) (Inv : β → Prop) :
    ∀ (l : List α) (b : β), (∀ acc a, a ∈ l → Inv acc → Inv (step acc a)) →
      Inv b → Inv (l.foldl step b) := by
  intro l
  induction l with
  | nil => intro b _ hb; exact hb
  | cons a as ih =>
    intro b hstep hb
    exact ih (step b a)
      (fun acc a' ha' => hstep acc a' (List.mem_cons_of_mem _ ha'))
      (hstep b a (List.mem_cons_self _ _) hb)

theorem latestOf_max : ∀ (xs : List ExpPlayer) (x : ExpPlayer),
    ∀ p ∈ x :: xs, p.sessionId ≤ (latestOf x xs).sessionId := by
  intro xs
  induction xs with
  | nil =>
    intro x p hp
    rcases List.mem_cons.mp hp with h | h
    · rw [h]; exact le_refl _
    · simp at h
  | cons y ys ih =>
    intro x p hp
    have hfold : latestOf x (y :: ys)
        = latestOf (if x.sessionId < y.sessionId then y else x) ys := rfl
    rw [hfold]
    have hx' : x.sessionId
        ≤ (if x.sessionId < y.sessionId then y else x).sessionId := by
      by_cases h : x.sessionId < y.sessionId
      · simp only [if_pos h]
        omega
      · simp [h]
    have hy' : y.sessionId
        ≤ (if x.sessionId < y.sessionId then y else x).sessionId := by
      by_cases h : x.sessionId < y.sessionId
      · simp [h]
      · simp only [if_neg h]
        omega
    rcases List.mem_cons.mp hp with h | h
    · rw [h]
      exact le_trans hx' (ih _ _ (List.mem_cons_self _ _))
    · rcases List.mem_cons.mp h with h2 | h2
      · rw [h2]
        exact le_trans hy' (ih _ _ (List.mem_cons_self _ _))
      · exact ih _ p (List.mem_cons_of_mem _ h2)

/-- Every entry of the participant dictionary has a key witnessed by a
processed player and members that are processed players with that key. -/
def GroupInv (Pq : ExpPlayer → Prop)
    (acc : List (String × List ExpPlayer)) : Prop :=
  ∀ e ∈ acc, (∃ p, Pq p ∧ p.participantCode = e.1) ∧
    ∀ q ∈ e.2, Pq q ∧ q.participantCode = e.1

theorem insertGrouped_inv (Pq : ExpPlayer → Prop) (p : ExpPlayer) (hp : Pq p) :
    ∀ acc, GroupInv Pq acc →
      GroupInv Pq (insertGrouped acc p.participantCode p) := by
  intro acc
  induction acc with
  | nil =>
    intro _ e he
    rw [insertGrouped] at he
    rcases List.mem_cons.mp he with h | h
    · subst h
      refine ⟨⟨p, hp, rfl⟩, ?_⟩
      intro q hq
      have hqp := List.mem_singleton.mp hq
      subst hqp
      exact ⟨hp, rfl⟩
    · simp at h
  | cons e' rest ih =>
    intro hInv
    rcases e' with ⟨k', l⟩
    rw [insertGrouped]
    by_cases hk : k' = p.participantCode
    · rw [if_pos hk]
      intro e he
      rcases List.mem_cons.mp he with h | h
      · subst h
        rcases hInv (k', l) (List.mem_cons_self _ _) with ⟨hex, hall⟩
        refine ⟨hex, ?_⟩
        intro q hq
        rcases List.mem_append.mp hq with h2 | h2
        · exact hall q h2
        · have hqp := List.mem_singleton.mp h2
          subst hqp
          exact ⟨hp, hk.symm⟩
      · exact hInv e (List.mem_cons_of_mem _ h)
    · rw [if_neg hk]
      intro e he
      rcases List.mem_cons.mp he with h | h
      · subst h
        exact hInv (k', l) (List.mem_cons_self _ _)
      · exact ih (fun e2 he2 => hInv e2 (List.mem_cons_of_mem _ he2)) e h

theorem groupByParticipant_inv (Pq : ExpPlayer → Prop) (ps : List ExpPlayer)
    (hps : ∀ p ∈ ps, Pq p) : GroupInv Pq (groupByParticipant ps) := by
  rw [groupByParticipant]
  apply foldl_inv _ (GroupInv Pq) ps []
  · intro acc p hp hInv
    exact insertGrouped_inv Pq p (hps p hp) acc hInv
  · intro e he
    simp at he

theorem participantRows_codes :
    ∀ (gs : List (String × List ExpPlayer)) (idx : Nat) (rows : List PRow),
      participantRows idx gs = .ok rows →
      ∀ row ∈ rows, ∃ e ∈ gs, row.participant_code = e.1 := by
  intro gs
  induction gs with
  | nil =>
    intro idx rows h row hrow
    rw [participantRows] at h
    cases h
    simp at hrow
  | cons e rest ih =>
    intro idx rows h row hrow
    rcases e with ⟨code, pls⟩
    rw [participantRows] at h
    cases hpr : participantRow idx code pls with
    | error e' => rw [hpr] at h; cases h
    | ok row0 =>
      rw [hpr] at h
      cases hrest : participantRows (idx + 1) rest with
      | error e' => rw [hrest] at h; cases h
      | ok rows' =>
        rw [hrest] at h
        cases h
        rcases List.mem_cons.mp hrow with h2 | h2
        · subst h2
          refine ⟨(code, pls), List.mem_cons_self _ _, ?_⟩
          rw [participantRow] at hpr
          cases hnc : numCorrect pls with
          | error e' => rw [hnc] at hpr; cases hpr
          | ok nc =>
            rw [hnc] at hpr
            cases hpr
            rfl
        · rcases ih (idx + 1) rows' hrest row h2 with ⟨e2, he2, hcode⟩
          exact ⟨e2, List.mem_cons_of_mem _ he2, hcode⟩

/-- Claim C10: on a non-empty player list, `custom_export` keeps only the
players whose session code is that of the session with the maximal
internal id (the session of `latestOf`, which indeed has the maximal id);
every participant row is witnessed by a player of that session, and a
participant whose players all belong to other sessions gets no row. -/
theorem custom_export_latest_session_only (x : ExpPlayer)
    (xs : List ExpPlayer) (rows : List PRow)
    (hexp : custom_export (x :: xs) = .ok rows) :
    (∀ p ∈ x :: xs, p.sessionId ≤ (latestOf x xs).sessionId) ∧
    (∀ row ∈ rows, ∃ p ∈ x :: xs,
      p.sessionCode = (latestOf x xs).sessionCode ∧
      p.participantCode = row.participant_code) ∧
    (∀ pc : String,
      (∀ p ∈ x :: xs, p.participantCode = pc →
        p.sessionCode ≠ (latestOf x xs).sessionCode) →
      ∀ row ∈ rows, row.participant_code ≠ pc) := by
  rw [custom_export] at hexp
  have hrows : ∀ row ∈ rows, ∃ p ∈ x :: xs,
      p.sessionCode = (latestOf x xs).sessionCode ∧
      p.participantCode = row.participant_code := by
    intro row hrow
    rcases participantRows_codes _ 1 rows hexp row hrow with ⟨e, he, hcode⟩
    have hginv := groupByParticipant_inv
      (fun p => p ∈ x :: xs ∧ p.sessionCode = (latestOf x xs).sessionCode)
      ((x :: xs).filter fun p => p.sessionCode = (latestOf x xs).sessionCode)
      (fun p hp => ⟨List.mem_of_mem_filter hp,
        by simpa using (List.mem_filter.mp hp).2⟩)
    rcases (hginv e he).1 with ⟨p, ⟨hpmem, hpcode⟩, hpc⟩
    exact ⟨p, hpmem, hpcode, by rw [hpc, ← hcode]⟩
  refine ⟨latestOf_max xs x, hrows, ?_⟩
  intro pc hpc row hrow heq
  rcases hrows row hrow with ⟨p, hpmem, hpscode, hppc⟩
  exact hpc p hpmem (by rw [hppc, heq]) hpscode

/-- A participant whose only round has a null `investment_choice`, the
failing input for the export robustness claim. -/
def nullChoicePlayer : ExpPlayer :=
  { sessionId := 1, sessionCode := "s1", participantCode := "alice",
    investment_choice := none,
    group := some { successful_option := some "A" },
    is_advisor_followed := 0, payoff := 0 }

/-- Claim C9 (code defect): the comments of lines 329-335 document that the
guards exist so that a participant with missing data gets an empty row
"instead of crashing the export function", but the guard itself reads the
nullable field directly (`if pp.investment_choice`, line 333), which in
oTree raises `TypeError` on a null field.  With one participant whose
choice is null the export aborts with that error and yields no row for the
participant, instead of degrading gracefully as the spec requires. -/
theorem custom_export_raises_on_null_choice :
    custom_export [nullChoicePlayer] = .error "investment_choice is None" := rfl

-- --------------------------------------------------------------------
-- Concrete witnesses
-- --------------------------------------------------------------------

theorem redistribute_shape_bijection_witness :
    (redistribute [[1,2,3],[4,5,6],[7,8,9]]).length
      = ([[1,2,3],[4,5,6],[7,8,9]] : List (List Nat)).length :=
  (redistribute_shape_bijection_and_example [[1,2,3],[4,5,6],[7,8,9]] 3
    (by decide)).1

theorem redistribute_arrival_lex_witness :
    List.Pairwise (fun a b : Nat × Nat => a.1 < b.1 ∨ (a.1 = b.1 ∧ a.2 < b.2))
      ((redistribute (coordMatrix 3 3)).getD 0 []) :=
  (redistribute_arrival_lex_source_group 3 3 0 (by decide)).2.2

theorem successful_option_witness :
    (assignOptions followThenDeviateOracles 2
        (runUpTo followThenDeviateOracles initGrouping9 (2 - 1))).optW 2 0
      = (runUpTo followThenDeviateOracles initGrouping9 (2 - 1)).optW 2 0 + 1 :=
  (successful_option_assigned_before_decisions followThenDeviateOracles
    initGrouping9 2 0 (by decide) (by decide) (by decide)).2.1

theorem settle_payoff_witness :
    settleGroup "A"
        [{ investment_choice := some "A", advisor_option := some "A",
           is_advisor_followed := 0, payoff := 0 },
         { investment_choice := some "B", advisor_option := some "A",
           is_advisor_followed := 0, payoff := 0 }]
      = .ok
        [{ investment_choice := some "A", advisor_option := some "A",
           is_advisor_followed := 1, payoff := 10 },
         { investment_choice := some "B", advisor_option := some "A",
           is_advisor_followed := 0, payoff := 0 }] :=
  (settle_payoff_and_follow_counter "A"
    [{ investment_choice := some "A", advisor_option := some "A",
       is_advisor_followed := 0, payoff := 0 },
     { investment_choice := some "B", advisor_option := some "A",
       is_advisor_followed := 0, payoff := 0 }] (by decide)).2

theorem recommend_threshold_witness : recommend "A" 100 50 0 = "A" := by
  rcases recommend_threshold_behaviour "A" 100 50 0 (by norm_num)
    (by norm_num) with ⟨-, -, h, -⟩
  exact h rfl

theorem advisor_once_witness :
    (runUpTo followThenDeviateOracles initGrouping9 NUM_ROUNDS).advW 1 1 = 1 := by
  rcases advisor_recommendation_once_and_persisted followThenDeviateOracles
    initGrouping9 1 1 (by decide) (by decide) (by decide) (by decide) with
    ⟨a, c, -, -, h, -, -⟩
  exact h

theorem advisor_followed_flag_witness :
    (runUpTo followThenDeviateOracles initGrouping9 NUM_ROUNDS).followed 2 1
      ≤ 1 :=
  (advisor_followed_flag_and_cumulative_monotone followThenDeviateOracles
    initGrouping9 1).1 2 (by decide) (by decide) (by decide) (by decide)

/-- A player of an older session, for the latest-session-filter witness. -/
def oldSessionPlayer : ExpPlayer :=
  { sessionId := 1, sessionCode := "s1", participantCode := "alice",
    investment_choice := some "A",
    group := some { successful_option := some "A" },
    is_advisor_followed := 1, payoff := 10 }

/-- A player of the newest session, for the latest-session-filter witness. -/
def newSessionPlayer : ExpPlayer :=
  { sessionId := 2, sessionCode := "s2", participantCode := "bob",
    investment_choice := some "A",
    group := some { successful_option := some "A" },
    is_advisor_followed := 0, payoff := 10 }

theorem custom_export_latest_witness :
    oldSessionPlayer.sessionId
      ≤ (latestOf newSessionPlayer [oldSessionPlayer]).sessionId :=
  (custom_export_latest_session_only newSessionPlayer [oldSessionPlayer]
    [{ custom_id := "P1", participant_code := "bob", num_correct := 1,
       num_incorrect := 2, times_followed_adviser := 0, total_payoff := 10 }]
    (by rfl)).1 oldSessionPlayer (by decide)
